import Mathlib

/-!
# Verification of the email-catch capture pipeline

A shallow embedding, in Lean 4, of the core of the `email-catch` inbound
mail capture service: the MIME transfer decoder and parser
(`pkg/email/parser.go`), the routing and dispatch engine
(`pkg/email/processor.go`), the webhook client (`internal/webhook`) and the
per-connection SMTP session (`internal/smtp/server.go`).  Go standard
library functions used by the source (`net/textproto` header reading,
`mime.ParseMediaType`, `mime/multipart`, `encoding/base64`) are modelled
from their documented behaviour at the level of detail the theorems need.

Bytes are modelled as `List Char`, one `Char` per octet (all concrete
inputs in this development are ASCII).
-/

set_option maxHeartbeats 1000000

namespace EmailCatch

/-- A wire octet sequence, one `Char` per byte. -/
abbrev Bytes := List Char

instance {ε α : Type} [DecidableEq ε] [DecidableEq α] : DecidableEq (Except ε α) := fun a b =>
  match a, b with
  | Except.ok x, Except.ok y =>
      if h : x = y then isTrue (by rw [h]) else isFalse (fun hh => h (Except.ok.inj hh))
  | Except.error x, Except.error y =>
      if h : x = y then isTrue (by rw [h]) else isFalse (fun hh => h (Except.error.inj hh))
  | Except.ok _, Except.error _ => isFalse (fun hh => Except.noConfusion hh)
  | Except.error _, Except.ok _ => isFalse (fun hh => Except.noConfusion hh)

/-! ## String helpers

Executable (kernel-reducible) models of the Go string functions the source
uses; inputs of interest are ASCII, so case mapping and whitespace are the
ASCII ones. -/

/-- ASCII lower-casing of one character (`strings.ToLower` on ASCII). -/
def asciiLower (c : Char) : Char :=
  if 65 ≤ c.toNat ∧ c.toNat ≤ 90 then Char.ofNat (c.toNat + 32) else c

/-- `strings.ToLower` restricted to ASCII. -/
def lowerStr (s : String) : String := ⟨s.data.map asciiLower⟩

/-- ASCII whitespace, as recognized by `strings.TrimSpace`. -/
def isSpaceChar (c : Char) : Bool :=
  c = ' ' ∨ c = '\t' ∨ c = '\n' ∨ c = '\x0b' ∨ c = '\x0c' ∨ c = '\r'

/-- `strings.TrimSpace` restricted to ASCII whitespace. -/
def trimStr (s : String) : String :=
  ⟨((s.data.dropWhile isSpaceChar).reverse.dropWhile isSpaceChar).reverse⟩

/-- `strings.HasPrefix`. -/
def hasPrefixStr (s pre : String) : Bool := pre.data.isPrefixOf s.data

/-- `strings.HasSuffix`. -/
def hasSuffixStr (s suf : String) : Bool := suf.data.reverse.isPrefixOf s.data.reverse

/-- `strings.Contains` (substring occurrence). -/
def containsSub : List Char → List Char → Bool
  | _, [] => true
  | [], _ :: _ => false
  | c :: rest, needle => needle.isPrefixOf (c :: rest) || containsSub rest needle

/-- `strings.Contains` on strings. -/
def containsStr (s sub : String) : Bool := containsSub s.data sub.data

/-! ## Transfer decoding (`decodeContent`, parser.go)

`encoding/base64`: the standard alphabet, `=` padding; `Decode` ignores
`\r` and `\n` and rejects any other byte outside the alphabet, a quantum
that is not 4 bytes long, or misplaced padding. -/

/-- Value of one character of the standard base64 alphabet. -/
def b64Val (c : Char) : Option Nat :=
  if 'A' ≤ c ∧ c ≤ 'Z' then some (c.toNat - 65)
  else if 'a' ≤ c ∧ c ≤ 'z' then some (c.toNat - 97 + 26)
  else if '0' ≤ c ∧ c ≤ '9' then some (c.toNat - 48 + 52)
  else if c = '+' then some 62
  else if c = '/' then some 63
  else none

/-- Decode whole 4-character base64 quanta; `=` padding is legal only at
the end of the input. -/
def base64DecodeGroups : List Char → Option (List Char)
  | [] => some []
  | a :: b :: c :: d :: rest => do
    let va ← b64Val a
    let vb ← b64Val b
    if c = '=' then
      if d = '=' ∧ rest = [] then
        some [Char.ofNat ((va * 4 + vb / 16) % 256)]
      else none
    else do
      let vc ← b64Val c
      if d = '=' then
        if rest = [] then
          some [Char.ofNat ((va * 4 + vb / 16) % 256),
                Char.ofNat ((vb % 16 * 16 + vc / 4) % 256)]
        else none
      else do
        let vd ← b64Val d
        let tail ← base64DecodeGroups rest
        some ([Char.ofNat ((va * 4 + vb / 16) % 256),
               Char.ofNat ((vb % 16 * 16 + vc / 4) % 256),
               Char.ofNat ((vc % 4 * 64 + vd) % 256)] ++ tail)
  | _ => none

/-- `base64.StdEncoding.Decode`: newline bytes are skipped, everything
else must form valid padded quanta. -/
def base64Decode (data : Bytes) : Option Bytes :=
  base64DecodeGroups (data.filter (fun c => ¬(c = '\r' ∨ c = '\n')))

/-- `decodeContent` (parser.go).  The `quoted-printable` arm of the source
wraps the data in a plain `strings.Reader` and `io.ReadAll`s it back, so
it returns the bytes unchanged and never fails. -/
def decodeContent (data : Bytes) (encoding : String) : Except String Bytes :=
  let enc := lowerStr (trimStr encoding)
  if enc = "base64" then
    match base64Decode data with
    | some decoded => Except.ok decoded
    | none => Except.error "failed to decode base64"
  else if enc = "quoted-printable" then
    Except.ok data
  else if enc = "7bit" ∨ enc = "8bit" ∨ enc = "binary" ∨ enc = "" then
    Except.ok data
  else
    Except.ok data

/-! ## Header block reading

Model of `net/mail.ReadMessage` / `net/textproto.ReadMIMEHeader`: the
header block is cut from the body at the first empty line, logical lines
are joined from continuation lines, each logical line is split at the
first colon, keys are canonicalized, values are collected per key in
arrival order.  A missing blank line, an initial continuation line, a
line without a colon or a key with an invalid byte is a hard error. -/

/-- Valid MIME header field byte (`net/textproto`'s token table). -/
def validHeaderFieldChar (c : Char) : Bool :=
  c.isAlphanum ||
  (c = '!' || c = '#' || c = '$' || c = '%' || c = '&' || c = '\x27' ||
   c = '*' || c = '+' || c = '-' || c = '.' || c = '^' || c = '_' ||
   c = '\x60' || c = '|' || c = '~')

/-- ASCII upper-casing of one character. -/
def asciiUpper (c : Char) : Char :=
  if 97 ≤ c.toNat ∧ c.toNat ≤ 122 then Char.ofNat (c.toNat - 32) else c

/-- The case-toggling pass of `textproto.CanonicalMIMEHeaderKey`: upper
case at the start and after each hyphen, lower case elsewhere. -/
def canonToggle : Bool → List Char → List Char
  | _, [] => []
  | upper, c :: rest =>
    let c' := if upper then asciiUpper c else asciiLower c
    c' :: canonToggle (c' = '-') rest

/-- `textproto.CanonicalMIMEHeaderKey` when every byte of the key is
valid; `none` when some byte is invalid (the reader then rejects the
header line). -/
def canonicalKeyOpt (s : String) : Option String :=
  if s.data.all validHeaderFieldChar then some ⟨canonToggle true s.data⟩ else none

/-- `textproto.CanonicalMIMEHeaderKey`: keys with invalid bytes are
returned unchanged. -/
def canonicalMIMEHeaderKey (s : String) : String := (canonicalKeyOpt s).getD s

/-- One wire line up to and including the first `'\n'`; `none` when the
input ends before a newline (an EOF mid-header block). -/
def takeLine : Bytes → Option (Bytes × Bytes)
  | [] => none
  | c :: rest =>
    if c = '\n' then some ([], rest)
    else
      match takeLine rest with
      | some (l, r) => some (c :: l, r)
      | none => none

/-- Drop one trailing `'\r'` (the reader strips `\r\n` and bare `\n`
line terminators alike). -/
def stripCR (l : Bytes) : Bytes :=
  if l.getLast? = some '\r' then l.dropLast else l

/-- Raw header lines down to the first empty line; the rest of the input
is the body.  Fuelled so the definition evaluates in the kernel; callers
pass `input.length + 1`, which is always enough. -/
def collectHeaderLines : Nat → Bytes → Except String (List Bytes × Bytes)
  | 0, _ => Except.error "failed to read header block"
  | fuel + 1, input =>
    match takeLine input with
    | none => Except.error "failed to read header block"
    | some (rawLine, rest) =>
      let line := stripCR rawLine
      if line = [] then Except.ok ([], rest)
      else
        match collectHeaderLines fuel rest with
        | Except.error e => Except.error e
        | Except.ok (ls, body) => Except.ok (line :: ls, body)

/-- Does a raw header line continue the previous one? -/
def isContinuationLine (l : Bytes) : Bool :=
  l.head? = some ' ' ∨ l.head? = some '\t'

/-- Join continuation lines onto their logical line with a single space
(`textproto.Reader.readContinuedLine`). -/
def joinContinuations : Bytes → List Bytes → List Bytes
  | cur, [] => [cur]
  | cur, l :: ls =>
    if isContinuationLine l then
      joinContinuations (cur ++ ' ' :: l.dropWhile (fun c => c = ' ' ∨ c = '\t')) ls
    else
      cur :: joinContinuations l ls

/-- Split a logical header line at its first colon. -/
def cutColon : Bytes → Option (Bytes × Bytes)
  | [] => none
  | c :: rest =>
    if c = ':' then some ([], rest)
    else
      match cutColon rest with
      | some (k, v) => some (c :: k, v)
      | none => none

/-- Parse one logical header line into a canonical key and its value
(left-trimmed of spaces and tabs). -/
def parseHeaderLine (line : Bytes) : Except String (String × String) :=
  match cutColon line with
  | none => Except.error "malformed MIME header line"
  | some (k, v) =>
    match canonicalKeyOpt ⟨k⟩ with
    | none => Except.error "malformed MIME header key"
    | some key => Except.ok (key, ⟨v.dropWhile (fun c => c = ' ' ∨ c = '\t')⟩)

/-- Append a value under a key, keeping first-appearance key order and
arrival order of the values of each key. -/
def addHeader : List (String × List String) → String → String → List (String × List String)
  | [], k, v => [(k, [v])]
  | (k', vs) :: rest, k, v =>
    if k' = k then (k', vs ++ [v]) :: rest else (k', vs) :: addHeader rest k v

/-- Build the header multimap from parsed (canonical key, value) pairs. -/
def buildHeaders (ps : List (String × String)) : List (String × List String) :=
  ps.foldl (fun m kv => addHeader m kv.1 kv.2) []

/-- The ordered value list stored under a key (empty when absent). -/
def headerVals (m : List (String × List String)) (key : String) : List String :=
  match m.find? (fun kv => kv.1 = key) with
  | some kv => kv.2
  | none => []

/-- Parse the header block of a raw message: the logical lines as
(canonical key, value) pairs in arrival order, plus the body bytes. -/
def readHeaderPairs (raw : Bytes) : Except String (List (String × String) × Bytes) :=
  match collectHeaderLines (raw.length + 1) raw with
  | Except.error e => Except.error e
  | Except.ok (lines, body) =>
    match lines with
    | [] => Except.ok ([], body)
    | first :: rest =>
      if isContinuationLine first then
        Except.error "malformed MIME header initial line"
      else
        let logical := joinContinuations first rest
        match logical.mapM parseHeaderLine with
        | Except.error e => Except.error e
        | Except.ok ps => Except.ok (ps, body)

/-- Parse result of `mail.ReadMessage`: the header multimap and the
body. -/
structure MimeMessage where
  headers : List (String × List String)
  body : Bytes
deriving DecidableEq, Repr

/-- `mail.ReadMessage`. -/
def readMessage (raw : Bytes) : Except String MimeMessage :=
  match readHeaderPairs raw with
  | Except.error e => Except.error e
  | Except.ok (ps, body) => Except.ok ⟨buildHeaders ps, body⟩

/-- `msg.Header.Get`: first value stored under the canonical form of the
key, `""` when absent. -/
def headerGet (m : MimeMessage) (key : String) : String :=
  match headerVals m.headers (canonicalMIMEHeaderKey key) with
  | [] => ""
  | v :: _ => v

/-! ## RFC 2047 encoded-word decoding (`decodeMIMEHeader`, parser.go)

Model of `mime.WordDecoder.DecodeHeader`: encoded words
`=?charset?B|Q?payload?=` are decoded in place; text that merely looks
like an encoded word is copied verbatim; an unknown charset or an
undecodable payload is an error, in which case the source keeps the whole
original header text. -/

/-- Hexadecimal digit value. -/
def hexVal (c : Char) : Option Nat :=
  if '0' ≤ c ∧ c ≤ '9' then some (c.toNat - 48)
  else if 'A' ≤ c ∧ c ≤ 'F' then some (c.toNat - 55)
  else if 'a' ≤ c ∧ c ≤ 'f' then some (c.toNat - 87)
  else none

/-- Q-encoding payload decoding: `_` is a space, `=XX` a hex-coded byte. -/
def qDecode : List Char → Option (List Char)
  | [] => some []
  | '_' :: rest => (qDecode rest).map (' ' :: ·)
  | '=' :: a :: b :: rest => do
    let ha ← hexVal a
    let hb ← hexVal b
    let t ← qDecode rest
    some (Char.ofNat (ha * 16 + hb) :: t)
  | '=' :: _ => none
  | c :: rest => (qDecode rest).map (c :: ·)

/-- Split at the first `'?'`. -/
def cutQMark : List Char → Option (List Char × List Char)
  | [] => none
  | c :: rest =>
    if c = '?' then some ([], rest)
    else
      match cutQMark rest with
      | some (a, b) => some (c :: a, b)
      | none => none

/-- Take an encoded-word payload up to its closing `?=`. -/
def takePayload : List Char → Option (List Char × List Char)
  | [] => none
  | '?' :: rest =>
    match rest with
    | '=' :: rest' => some ([], rest')
    | _ => none
  | c :: rest =>
    match takePayload rest with
    | some (a, b) => some (c :: a, b)
    | none => none

/-- Outcome of attempting to read one encoded word after a `=?`. -/
inductive WordRes where
  | notWord : WordRes
  | bad : WordRes
  | decoded (out rest : List Char) : WordRes

/-- Parse the remainder of one encoded word (input starts after `=?`). -/
def parseEncodedWord (s : List Char) : WordRes :=
  match cutQMark s with
  | none => WordRes.notWord
  | some (cs, rest1) =>
    match rest1 with
    | e :: '?' :: rest2 =>
      match takePayload rest2 with
      | none => WordRes.notWord
      | some (payload, rest3) =>
        let cset := cs.map asciiLower
        if cset = "utf-8".data ∨ cset = "us-ascii".data then
          if e = 'B' ∨ e = 'b' then
            match base64Decode payload with
            | some out => WordRes.decoded out rest3
            | none => WordRes.bad
          else if e = 'Q' ∨ e = 'q' then
            match qDecode payload with
            | some out => WordRes.decoded out rest3
            | none => WordRes.bad
          else WordRes.bad
        else WordRes.bad
    | _ => WordRes.notWord

/-- Scan a header value, decoding encoded words; `none` is a decoder
error (unknown charset or bad payload). -/
def decodeWordsScan : Nat → List Char → Option (List Char)
  | 0, _ => none
  | _, [] => some []
  | fuel + 1, '=' :: '?' :: rest =>
    match parseEncodedWord rest with
    | WordRes.decoded out rest' => (decodeWordsScan fuel rest').map (out ++ ·)
    | WordRes.notWord => (decodeWordsScan fuel rest).map (fun t => '=' :: '?' :: t)
    | WordRes.bad => none
  | fuel + 1, c :: rest => (decodeWordsScan fuel rest).map (c :: ·)

/-- `decodeMIMEHeader` (parser.go): decode RFC 2047 words, keeping the
original header text when decoding fails. -/
def decodeMIMEHeader (header : String) : String :=
  if header = "" then ""
  else
    match decodeWordsScan (header.data.length + 1) header.data with
    | some out => ⟨out⟩
    | none => header

/-! ## Date header (`mail.ParseDate`)

Modelled from the documented behaviour of `net/mail.ParseDate`; only its
success/failure surface matters to the pipeline (the source substitutes
the receipt time on failure) and no claim exercises the grammar itself,
so the check is a coarse RFC 5322 shape test. -/

/-- Split on a separator character, dropping empty fields. -/
def fieldsOn (sep : Char) (s : List Char) : List (List Char) :=
  (s.splitOn sep).filter (· ≠ [])

/-- Coarse RFC 5322 date recognizer standing in for `mail.ParseDate`. -/
def parseDateOk (s : String) : Bool :=
  let toks := fieldsOn ' ' ((trimStr s).data.map (fun c => if c = ',' then ' ' else c))
  let months := ["Jan", "Feb", "Mar", "Apr", "May", "Jun",
                 "Jul", "Aug", "Sep", "Oct", "Nov", "Dec"]
  (toks.any (fun t => months.any (fun m => m.data = t))) &&
  (toks.any (fun t => t.length = 4 && t.all Char.isDigit)) &&
  (toks.any (fun t => t.contains ':' && t.all (fun c => c.isDigit || c = ':')))

/-! ## `mime.ParseMediaType` -/

/-- `tspecial` bytes of RFC 1521 as used by `mime`'s token check. -/
def isTSpecialChar (c : Char) : Bool :=
  c = '(' || c = ')' || c = '<' || c = '>' || c = '@' || c = ',' ||
  c = ';' || c = ':' || c = '\\' || c = '\x22' || c = '/' ||
  c = '[' || c = ']' || c = '?' || c = '='

/-- `mime.isTokenChar`: printable ASCII that is neither space nor a
tspecial. -/
def isTokenChar (c : Char) : Bool :=
  32 < c.toNat && c.toNat < 127 && ¬isTSpecialChar c

/-- Is the trimmed, lowered media type a `token` or `token/token`? -/
def checkMediaType (mt : List Char) : Bool :=
  match mt.splitOn '/' with
  | [t] => t ≠ [] && t.all isTokenChar
  | [t, sub] => t ≠ [] && t.all isTokenChar && sub ≠ [] && sub.all isTokenChar
  | _ => false

/-- `strings.TrimSpace` on raw character lists. -/
def trimChars (l : List Char) : List Char :=
  ((l.dropWhile isSpaceChar).reverse.dropWhile isSpaceChar).reverse

/-- Split at the first occurrence of a separator character. -/
def cutOn (sep : Char) : List Char → Option (List Char × List Char)
  | [] => none
  | c :: rest =>
    if c = sep then some ([], rest)
    else
      match cutOn sep rest with
      | some (a, b) => some (c :: a, b)
      | none => none

/-- Parse one `attribute=value` media parameter (value either a token or
a quoted string). -/
def parseMediaParam (seg : List Char) : Option (String × String) := do
  let (k, v) ← cutOn '=' seg
  let key := (trimChars k).map asciiLower
  if key = [] ∨ ¬key.all isTokenChar then none
  else
    let v := trimChars v
    match v with
    | '\x22' :: rest =>
      if rest.getLast? = some '\x22' then some (⟨key⟩, ⟨rest.dropLast⟩) else none
    | _ => if v ≠ [] ∧ v.all isTokenChar then some (⟨key⟩, ⟨v⟩) else none

/-- `mime.ParseMediaType`: lowered, trimmed media type plus its
parameters; errors on a malformed type or parameter and on duplicate
parameter names. -/
def parseMediaType (v : String) : Except String (String × List (String × String)) :=
  match v.data.splitOn ';' with
  | [] => Except.error "mime: no media type"
  | mt :: rawPs =>
    let mediatype := (trimChars mt).map asciiLower
    if ¬checkMediaType mediatype then Except.error "mime: expected token"
    else
      let segs := (rawPs.map trimChars).filter (· ≠ [])
      match segs.mapM parseMediaParam with
      | none => Except.error "mime: invalid media parameter"
      | some params =>
        if (params.map Prod.fst).Nodup then Except.ok (⟨mediatype⟩, params)
        else Except.error "mime: duplicate parameter name"

/-- First value of a media parameter (`params[key]`, `""` when absent). -/
def paramGet (ps : List (String × String)) (key : String) : String :=
  match ps.find? (fun p => p.1 = key) with
  | some p => p.2
  | none => ""

/-- `mime.ParseMediaType` as the source uses it with a discarded error:
the zero values `("", nil)` on failure. -/
def parseMediaTypeLenient (v : String) : String × List (String × String) :=
  match parseMediaType v with
  | Except.ok r => r
  | Except.error _ => ("", [])

/-! ## Multipart bodies (`mime/multipart` plus `Email.parseMultipart`)

Model of `multipart.Reader`: lines before the first dash-boundary are
preamble, `--boundary` lines delimit parts, `--boundary--` closes the
body; reaching the end of input without a closing delimiter is an error
(`multipart: NextPart: EOF`).  Each part's own header block is read with
the MIME header reader and the `\r\n` that precedes a delimiter belongs
to the delimiter, not to the part content. -/

/-- Cut the input into lines, each keeping its trailing `'\n'`; a final
fragment without a newline forms the last line. -/
def splitLinesKE : Nat → Bytes → List Bytes
  | 0, b => [b]
  | fuel + 1, b =>
    match takeLine b with
    | none => if b = [] then [] else [b]
    | some (l, rest) => (l ++ ['\n']) :: splitLinesKE fuel rest

/-- Strip a line's trailing newline (`\r\n` or bare `\n`). -/
def stripLineEnd (l : Bytes) : Bytes :=
  stripCR (if l.getLast? = some '\n' then l.dropLast else l)

/-- A dash-boundary delimiter line, allowing transport padding. -/
def isDelimLine (boundary : String) (l : Bytes) : Bool :=
  ((stripLineEnd l).reverse.dropWhile (fun c => c = ' ' ∨ c = '\t')).reverse =
    '-' :: '-' :: boundary.data

/-- A closing `--boundary--` delimiter line, allowing transport padding. -/
def isCloseDelimLine (boundary : String) (l : Bytes) : Bool :=
  ((stripLineEnd l).reverse.dropWhile (fun c => c = ' ' ∨ c = '\t')).reverse =
    '-' :: '-' :: boundary.data ++ ['-', '-']

/-- Collect the line groups of the parts that follow an opening
delimiter, until the closing delimiter. -/
def mpParts (boundary : String) : List Bytes → List Bytes → Except String (List (List Bytes))
  | [], _ => Except.error "multipart: NextPart: EOF"
  | l :: ls, cur =>
    if isCloseDelimLine boundary l then Except.ok [cur]
    else if isDelimLine boundary l then
      match mpParts boundary ls [] with
      | Except.error e => Except.error e
      | Except.ok rest => Except.ok (cur :: rest)
    else mpParts boundary ls (cur ++ [l])

/-- Skip the preamble, then collect all part line groups. -/
def mpPreamble (boundary : String) : List Bytes → Except String (List (List Bytes))
  | [] => Except.error "multipart: NextPart: EOF"
  | l :: ls =>
    if isCloseDelimLine boundary l then Except.ok []
    else if isDelimLine boundary l then mpParts boundary ls []
    else mpPreamble boundary ls

/-- One multipart part: its MIME header and its content bytes. -/
structure RawPart where
  headers : List (String × List String)
  content : Bytes
deriving DecidableEq, Repr

/-- Drop the newline that separates part content from the following
delimiter line. -/
def dropTrailingCRLF (b : Bytes) : Bytes :=
  if b.getLast? = some '\n' then stripCR b.dropLast else b

/-- Read one part's header block and content from its raw lines. -/
def readPart (ls : List Bytes) : Except String RawPart :=
  match readHeaderPairs ls.flatten with
  | Except.error e => Except.error e
  | Except.ok (ps, content) => Except.ok ⟨buildHeaders ps, dropTrailingCRLF content⟩

/-- Split a multipart body on its boundary into parts, reading each
part's header block (`multipart.Reader.NextPart` iterated to EOF). -/
def multipartSplit (body : Bytes) (boundary : String) : Except String (List RawPart) :=
  match mpPreamble boundary (splitLinesKE (body.length + 1) body) with
  | Except.error e => Except.error e
  | Except.ok groups => groups.mapM readPart

/-- `part.Header.Get`. -/
def partHeaderGet (p : RawPart) (key : String) : String :=
  match headerVals p.headers (canonicalMIMEHeaderKey key) with
  | [] => ""
  | v :: _ => v

/-- An email attachment (parser.go). -/
structure Attachment where
  filename : String
  contentType : String
  content : Bytes
  size : Nat
deriving DecidableEq, Repr

/-- The body fields `Email.parseMultipart` accumulates while walking the
parts. -/
structure PartsAcc where
  body : String
  htmlBody : String
  attachments : List Attachment
deriving DecidableEq, Repr

/-- `getFileExtension` (parser.go). -/
def getFileExtension (mediaType : String) : String :=
  if mediaType = "application/pdf" then ".pdf"
  else if mediaType = "application/msword" then ".doc"
  else if mediaType = "application/vnd.openxmlformats-officedocument.wordprocessingml.document" then ".docx"
  else if mediaType = "application/vnd.ms-excel" then ".xls"
  else if mediaType = "application/vnd.openxmlformats-officedocument.spreadsheetml.sheet" then ".xlsx"
  else if mediaType = "application/zip" then ".zip"
  else if mediaType = "application/x-rar-compressed" then ".rar"
  else if mediaType = "image/jpeg" then ".jpg"
  else if mediaType = "image/png" then ".png"
  else if mediaType = "image/gif" then ".gif"
  else if mediaType = "text/plain" then ".txt"
  else if mediaType = "text/html" then ".html"
  else ".bin"

mutual

/-- `Email.parseMultipart` (parser.go): split on the boundary and process
each part in order.  Fuelled for nested multiparts; callers pass more
fuel than the byte length of the message, which the recursion (which
consumes at least one decoded byte per level) never exhausts. -/
def parseMultipart : Nat → PartsAcc → Bytes → String → Except String PartsAcc
  | 0, _, _, _ => Except.error "multipart: NextPart: EOF"
  | fuel + 1, acc, body, boundary =>
    match multipartSplit body boundary with
    | Except.error e => Except.error ("failed to read multipart: " ++ e)
    | Except.ok parts => parseParts fuel acc parts

/-- Process the parts of one multipart level in order. -/
def parseParts : Nat → PartsAcc → List RawPart → Except String PartsAcc
  | 0, _, _ => Except.error "multipart: NextPart: EOF"
  | _ + 1, acc, [] => Except.ok acc
  | fuel + 1, acc, p :: rest =>
    match parsePart fuel acc p with
    | Except.error e => Except.error e
    | Except.ok acc' => parseParts fuel acc' rest

/-- Process one part: transfer-decode it, classify it as an attachment or
as the plain/HTML body, recursing into nested multiparts. -/
def parsePart : Nat → PartsAcc → RawPart → Except String PartsAcc
  | 0, _, _ => Except.error "multipart: NextPart: EOF"
  | fuel + 1, acc, p =>
    let contentType := partHeaderGet p "Content-Type"
    let contentDisposition := partHeaderGet p "Content-Disposition"
    let contentTransferEncoding := partHeaderGet p "Content-Transfer-Encoding"
    match decodeContent p.content contentTransferEncoding with
    | Except.error e => Except.error ("failed to decode part content: " ++ e)
    | Except.ok decoded =>
      let dpair := parseMediaTypeLenient contentDisposition
      let disposition := dpair.1
      let dparams := dpair.2
      let att1 :=
        if disposition = "attachment" ∨ (disposition = "" ∧ paramGet dparams "filename" ≠ "") then
          (true, paramGet dparams "filename")
        else (false, "")
      let mpair := parseMediaTypeLenient contentType
      let mediaType := mpair.1
      let mediaParams := mpair.2
      let att2 :=
        if hasPrefixStr mediaType "application/" ∧ ¬hasPrefixStr mediaType "application/text" then
          (true, if att1.2 = "" then paramGet mediaParams "name" else att1.2)
        else att1
      let att3 :=
        if hasPrefixStr mediaType "image/" then
          (true, if att2.2 = "" then paramGet mediaParams "name" else att2.2)
        else att2
      let att4 :=
        if hasPrefixStr contentType "message/rfc822" ∨ containsStr contentType "forwarded-message" then
          (true, if att3.2 = "" then "forwarded_email.eml" else att3.2)
        else att3
      if att4.1 then
        let filename :=
          if att4.2 = "" then
            "attachment_" ++ toString (acc.attachments.length + 1) ++ getFileExtension mediaType
          else att4.2
        Except.ok { acc with attachments :=
          acc.attachments ++ [⟨filename, contentType, decoded, decoded.length⟩] }
      else
        if hasPrefixStr mediaType "text/html" then
          Except.ok { acc with htmlBody := ⟨decoded⟩ }
        else if hasPrefixStr mediaType "text/plain" then
          Except.ok { acc with body := ⟨decoded⟩ }
        else if hasPrefixStr mediaType "multipart/" then
          let nestedBoundary := paramGet mediaParams "boundary"
          if nestedBoundary ≠ "" then
            match parseMultipart fuel acc decoded nestedBoundary with
            | Except.error e => Except.error ("failed to parse nested multipart: " ++ e)
            | Except.ok acc' => Except.ok acc'
          else Except.ok acc
        else Except.ok acc

end

/-- The parse output (parser.go `Email`); `date` is `some` of the raw
`Date` header when it parses, `none` standing for the receipt time the
source substitutes. -/
structure Email where
  fromAddr : String
  toAddrs : List String
  subject : String
  date : Option String
  messageID : String
  headers : List (String × List String)
  body : String
  htmlBody : String
  attachments : List Attachment
  raw : Bytes
deriving DecidableEq, Repr

/-- `ParseEmail` (parser.go). -/
def parseEmail (rawData : Bytes) (fromArg : String) (toArg : List String) :
    Except String Email :=
  match readMessage rawData with
  | Except.error e => Except.error ("failed to parse email: " ++ e)
  | Except.ok msg =>
    let headers := msg.headers.map (fun kv => (kv.1, kv.2.map decodeMIMEHeader))
    let subject := decodeMIMEHeader (headerGet msg "Subject")
    let messageID := decodeMIMEHeader (headerGet msg "Message-Id")
    let fromAddr :=
      if headerGet msg "From" ≠ "" then decodeMIMEHeader (headerGet msg "From") else fromArg
    let date :=
      if headerGet msg "Date" ≠ "" ∧ parseDateOk (headerGet msg "Date") then
        some (headerGet msg "Date")
      else none
    let contentType :=
      if headerGet msg "Content-Type" = "" then "text/plain" else headerGet msg "Content-Type"
    match parseMediaType contentType with
    | Except.error e => Except.error ("failed to parse content type: " ++ e)
    | Except.ok (mediaType, params) =>
      if hasPrefixStr mediaType "multipart/" then
        if paramGet params "boundary" = "" then
          Except.error "missing boundary in multipart message"
        else
          match parseMultipart (2 * msg.body.length + 8) ⟨"", "", []⟩ msg.body
              (paramGet params "boundary") with
          | Except.error e => Except.error ("failed to parse multipart message: " ++ e)
          | Except.ok acc =>
            Except.ok ⟨fromAddr, toArg, subject, date, messageID, headers,
                       acc.body, acc.htmlBody, acc.attachments, rawData⟩
      else
        let encoding := headerGet msg "Content-Transfer-Encoding"
        match decodeContent msg.body encoding with
        | Except.error e => Except.error ("failed to decode message body: " ++ e)
        | Except.ok decoded =>
          if hasPrefixStr mediaType "text/html" then
            Except.ok ⟨fromAddr, toArg, subject, date, messageID, headers,
                       "", ⟨decoded⟩, [], rawData⟩
          else
            Except.ok ⟨fromAddr, toArg, subject, date, messageID, headers,
                       ⟨decoded⟩, "", [], rawData⟩

/-- `Email.ToEML` (parser.go): the exact stored wire bytes. -/
def Email.ToEML (e : Email) : Bytes := e.raw

/-! ## Regular expressions (`regexp`, processor.go)

A small executable engine standing in for Go's `regexp`, covering the
subset of syntax route conditions use: literals, `.`, `(...)`, `|`, `*`,
`+`, `?` and backslash escapes.  `regexpCompile` fails (as
`regexp.Compile` does) on malformed patterns such as an unmatched `(`,
a dangling quantifier or an unsupported construct.  `regexpMatch` is
`MatchString`: an unanchored search, true iff some substring of the
input is in the pattern's language. -/

/-- Regular expression syntax. -/
inductive Regex where
  | void : Regex
  | eps : Regex
  | chr (c : Char) : Regex
  | any : Regex
  | alt (r s : Regex) : Regex
  | cat (r s : Regex) : Regex
  | star (r : Regex) : Regex
deriving DecidableEq, Repr

/-- Language semantics of the regex syntax. -/
inductive RMatch : Regex → List Char → Prop where
  | eps : RMatch Regex.eps []
  | chr (c : Char) : RMatch (Regex.chr c) [c]
  | any (c : Char) : RMatch Regex.any [c]
  | altL {r r' : Regex} {s : List Char} : RMatch r s → RMatch (Regex.alt r r') s
  | altR {r r' : Regex} {s : List Char} : RMatch r' s → RMatch (Regex.alt r r') s
  | cat {r r' : Regex} {s s' : List Char} :
      RMatch r s → RMatch r' s' → RMatch (Regex.cat r r') (s ++ s')
  | starNil {r : Regex} : RMatch (Regex.star r) []
  | starCons {r : Regex} {s t : List Char} :
      RMatch r s → RMatch (Regex.star r) t → RMatch (Regex.star r) (s ++ t)

/-- Does the regex accept the empty word? -/
def nullable : Regex → Bool
  | Regex.void => false
  | Regex.eps => true
  | Regex.chr _ => false
  | Regex.any => false
  | Regex.alt r s => nullable r || nullable s
  | Regex.cat r s => nullable r && nullable s
  | Regex.star _ => true

/-- Brzozowski derivative with respect to one character. -/
def rderiv : Regex → Char → Regex
  | Regex.void, _ => Regex.void
  | Regex.eps, _ => Regex.void
  | Regex.chr c, a => if a = c then Regex.eps else Regex.void
  | Regex.any, _ => Regex.eps
  | Regex.alt r s, a => Regex.alt (rderiv r a) (rderiv s a)
  | Regex.cat r s, a =>
    if nullable r then Regex.alt (Regex.cat (rderiv r a) s) (rderiv s a)
    else Regex.cat (rderiv r a) s
  | Regex.star r, a => Regex.cat (rderiv r a) (Regex.star r)

/-- Does the regex accept some prefix of the input? -/
def matchHere : Regex → List Char → Bool
  | r, [] => nullable r
  | r, c :: rest => nullable r || matchHere (rderiv r c) rest

/-- Does the regex accept a substring starting anywhere in the input? -/
def searchFrom : Regex → List Char → Bool
  | r, [] => nullable r
  | r, c :: rest => matchHere r (c :: rest) || searchFrom r rest

/-- `regexp.MatchString`: unanchored search. -/
def regexpMatch (r : Regex) (s : String) : Bool := searchFrom r s.data

/-- Wrap an atom in its trailing quantifiers. -/
def parseQuants (r : Regex) : List Char → Regex × List Char
  | '*' :: rest => parseQuants (Regex.star r) rest
  | '+' :: rest => parseQuants (Regex.cat r (Regex.star r)) rest
  | '?' :: rest => parseQuants (Regex.alt r Regex.eps) rest
  | rest => (r, rest)

mutual

/-- Parse an alternation `cat ('|' alt)?`. -/
def parseRAlt : Nat → List Char → Option (Regex × List Char)
  | 0, _ => none
  | fuel + 1, s =>
    match parseRCat (fuel + 1) s with
    | none => none
    | some (r, rest) =>
      match rest with
      | '|' :: rest' =>
        match parseRAlt fuel rest' with
        | none => none
        | some (r', rest'') => some (Regex.alt r r', rest'')
      | _ => some (r, rest)

/-- Parse a concatenation of repeated atoms. -/
def parseRCat : Nat → List Char → Option (Regex × List Char)
  | 0, _ => none
  | fuel + 1, s =>
    match s with
    | [] => some (Regex.eps, [])
    | ')' :: _ => some (Regex.eps, s)
    | '|' :: _ => some (Regex.eps, s)
    | _ =>
      match parseRRep fuel s with
      | none => none
      | some (r, rest) =>
        match parseRCat fuel rest with
        | none => none
        | some (r', rest') => some (Regex.cat r r', rest')

/-- Parse an atom followed by `*`, `+` or `?` quantifiers. -/
def parseRRep : Nat → List Char → Option (Regex × List Char)
  | 0, _ => none
  | fuel + 1, s =>
    match parseRAtom fuel s with
    | none => none
    | some (r, rest) => some (parseQuants r rest)

/-- Parse one atom: a group, `.`, an escaped character or a literal. -/
def parseRAtom : Nat → List Char → Option (Regex × List Char)
  | 0, _ => none
  | fuel + 1, s =>
    match s with
    | [] => none
    | '(' :: rest =>
      match parseRAlt fuel rest with
      | none => none
      | some (r, rest') =>
        match rest' with
        | ')' :: rest'' => some (r, rest'')
        | _ => none
    | '.' :: rest => some (Regex.any, rest)
    | '\\' :: c :: rest => some (Regex.chr c, rest)
    | '\\' :: [] => none
    | c :: rest =>
      if c = ')' ∨ c = '|' ∨ c = '*' ∨ c = '+' ∨ c = '?' ∨ c = '[' ∨ c = ']' then none
      else some (Regex.chr c, rest)

end

/-- `regexp.Compile`: `none` is a compilation failure. -/
def regexpCompile (pattern : String) : Option Regex :=
  match parseRAlt (pattern.data.length + 1) pattern.data with
  | some (r, []) => some r
  | _ => none

/-! ## Routing engine (processor.go) -/

/-- A route condition (`config.Condition`): empty patterns are
wildcards. -/
structure Condition where
  recipientPattern : String
  senderPattern : String
  subjectPattern : String
deriving DecidableEq, Repr

/-- A route action (`config.Action`). -/
structure Action where
  type : String
  config : List (String × String)
  enabled : Bool
deriving DecidableEq, Repr

/-- A routing rule (`config.RouteConfig`). -/
structure RouteConfig where
  name : String
  condition : Condition
  actions : List Action
  enabled : Bool
deriving DecidableEq, Repr

/-- `Config.GetEnabledRoutes`: the enabled rules in configuration
order. -/
def getEnabledRoutes : List RouteConfig → List RouteConfig
  | [] => []
  | route :: rest =>
    if route.enabled then route :: getEnabledRoutes rest else getEnabledRoutes rest

/-- `Processor.routeMatches`: each non-empty condition must match; a
pattern that fails to compile makes the rule non-matching. -/
def routeMatches (email : Email) (route : RouteConfig) : Bool :=
  (if route.condition.recipientPattern ≠ "" then
    match regexpCompile route.condition.recipientPattern with
    | none => false
    | some pattern => email.toAddrs.any (fun recipient => regexpMatch pattern recipient)
  else true) &&
  (if route.condition.senderPattern ≠ "" then
    match regexpCompile route.condition.senderPattern with
    | none => false
    | some pattern => regexpMatch pattern email.fromAddr
  else true) &&
  (if route.condition.subjectPattern ≠ "" then
    match regexpCompile route.condition.subjectPattern with
    | none => false
    | some pattern => regexpMatch pattern email.subject
  else true)

/-- `Processor.findMatchingRoutes`: every matching rule, in input
order. -/
def findMatchingRoutes (email : Email) : List RouteConfig → List RouteConfig
  | [] => []
  | route :: rest =>
    if routeMatches email route then route :: findMatchingRoutes email rest
    else findMatchingRoutes email rest

/-! ## Action dispatch (processor.go)

The storage backend and webhook client are external collaborators; their
outcome on a given action is abstracted as a boolean oracle `runAction`.
`executeRoute` mirrors `Processor.executeRoute`: enabled actions run in
declared order, an unknown action type is logged and skipped, and a
failing known action makes the function return its error immediately —
later actions of the same rule are not attempted.  The returned trace
lists the actions that were attempted (the failing one included). -/

/-- Is the action type one of the three the dispatcher knows? -/
def knownActionType (t : String) : Bool :=
  t = "store_local" ∨ t = "store_s3" ∨ t = "webhook"

/-- The error message `executeRoute` wraps around a failing action. -/
def actionFailMsg (t : String) : String :=
  if t = "store_local" then "local storage action failed"
  else if t = "store_s3" then "S3 storage action failed"
  else "webhook action failed"

/-- `Processor.executeRoute`: returns the attempted actions and the error
of the first failing enabled action, if any. -/
def executeRoute (runAction : Action → Bool) : List Action → List Action × Option String
  | [] => ([], none)
  | action :: rest =>
    if ¬action.enabled then executeRoute runAction rest
    else if knownActionType action.type then
      if runAction action then
        let r := executeRoute runAction rest
        (action :: r.1, r.2)
      else ([action], some (actionFailMsg action.type))
    else executeRoute runAction rest

/-- The per-rule loop of `Processor.ProcessEmail`: each matched rule's
actions are executed, a failing rule is logged (second component) and the
loop continues with the next matched rule. -/
def dispatchList (runAction : Action → Bool) :
    List RouteConfig → List (String × Action) × List String
  | [] => ([], [])
  | route :: rest =>
    let r := executeRoute runAction route.actions
    let tail := dispatchList runAction rest
    (r.1.map (fun a => (route.name, a)) ++ tail.1,
     match r.2 with
     | some e => ("Failed to execute route " ++ route.name ++ ": " ++ e) :: tail.2
     | none => tail.2)

/-- Routing plus dispatch for an already-parsed email: enabled rules are
filtered, matching rules found in configuration order, and each executed
with per-rule failure isolation. -/
def dispatchRoutes (runAction : Action → Bool) (email : Email) (routes : List RouteConfig) :
    List (String × Action) × List String :=
  dispatchList runAction (findMatchingRoutes email (getEnabledRoutes routes))

/-- `Processor.ProcessEmail`: parse, route, dispatch.  The returned
`Option String` is the function's error result — `some` exactly when the
parse step failed; route execution failures are only logged (the middle
component) and never propagate. -/
def processEmail (runAction : Action → Bool) (routes : List RouteConfig)
    (fromArg : String) (toArg : List String) (rawData : Bytes) :
    List (String × Action) × List String × Option String :=
  match parseEmail rawData fromArg toArg with
  | Except.error e => ([], [], some ("failed to parse email: " ++ e))
  | Except.ok email =>
    let r := dispatchRoutes runAction email routes
    (r.1, r.2, none)

/-! ## Webhook delivery (webhook/client.go, processor.go)

HTTP delivery is a collaborator; `sendOk n` abstracts whether the n-th
attempt (counting from 0) would succeed.  Results report the attempt
count and, for the retry helper, the waits slept between attempts. -/

/-- `Client.SendWebhook`: one delivery attempt. -/
def sendWebhook (sendOk : Nat → Bool) (attempt : Nat) : Except String Unit :=
  if sendOk attempt then Except.ok () else Except.error "failed to send webhook"

/-- The attempt loop of `Client.SendWebhookWithRetry`, with `left`
attempts remaining; before every attempt but the first the client sleeps
`attempt * attempt` seconds. -/
def retryLoop (sendOk : Nat → Bool) : Nat → Nat → Except String Unit × Nat × List Nat
  | _, 0 => (Except.error "webhook failed after all attempts", 0, [])
  | attempt, left + 1 =>
    let waits := if attempt > 0 then [attempt * attempt] else []
    match sendWebhook sendOk attempt with
    | Except.ok () => (Except.ok (), 1, waits)
    | Except.error _ =>
      let r := retryLoop sendOk (attempt + 1) left
      (r.1, r.2.1 + 1, waits ++ r.2.2)

/-- `Client.SendWebhookWithRetry`: up to `maxRetries + 1` attempts. -/
def sendWebhookWithRetry (sendOk : Nat → Bool) (maxRetries : Nat) :
    Except String Unit × Nat × List Nat :=
  retryLoop sendOk 0 (maxRetries + 1)

/-- `Processor.executeWebhook`: reads `url`/`method` from the action
config and performs a single `SendWebhook` call — it does not use the
retry helper.  Returns the action result and the number of delivery
attempts made. -/
def executeWebhook (sendOk : Nat → Bool) (action : Action) : Except String Unit × Nat :=
  if paramGet action.config "url" = "" then
    (Except.error "webhook URL not specified", 0)
  else
    match sendWebhook sendOk 0 with
    | Except.ok () => (Except.ok (), 1)
    | Except.error e => (Except.error e, 1)

/-! ## SMTP session (internal/smtp/server.go)

Replies are modelled as the list of reply codes written to the
connection; each handler returns the codes it sent, the next session
state, and whether the connection stays open. -/

/-- Mutable per-connection session state (`smtp.Session`). -/
structure SessionState where
  helo : String
  mailFrom : String
  rcptTo : List String
  dataBuf : Bytes
  tlsEnabled : Bool
deriving DecidableEq, Repr

/-- `strings.ToUpper` restricted to ASCII. -/
def upperStr (s : String) : String := ⟨s.data.map asciiUpper⟩

/-- Strip one matching pair of angle brackets. -/
def stripAngle (s : String) : String :=
  if hasPrefixStr s "<" ∧ hasSuffixStr s ">" then ⟨(s.data.drop 1).dropLast⟩ else s

/-- `Session.handleMail`. -/
def handleMail (st : SessionState) (args : String) : List Nat × SessionState :=
  if st.helo = "" then ([503], st)
  else if ¬hasPrefixStr (upperStr args) "FROM:" then ([501], st)
  else
    let fromAddr := stripAngle (trimStr ⟨args.data.drop 5⟩)
    ([250], { st with mailFrom := fromAddr, rcptTo := [] })

/-- `Session.handleRcpt`. -/
def handleRcpt (st : SessionState) (args : String) : List Nat × SessionState :=
  if st.mailFrom = "" then ([503], st)
  else if ¬hasPrefixStr (upperStr args) "TO:" then ([501], st)
  else
    let toAddr := stripAngle (trimStr ⟨args.data.drop 3⟩)
    ([250], { st with rcptTo := st.rcptTo ++ [toAddr] })

/-- `Session.handleRset`. -/
def handleRset (st : SessionState) : List Nat × SessionState :=
  ([250], { st with mailFrom := "", rcptTo := [], dataBuf := [] })

/-- `Session.handleStartTLS`.  `serverTLSEnabled` is the configuration
flag; `tlsConfigOk` abstracts loading the certificate pair and
`handshakeOk` the TLS handshake with the peer.  The result's last
component is whether the connection stays open. -/
def handleStartTLS (tlsConfigOk handshakeOk : Bool) (serverTLSEnabled : Bool)
    (st : SessionState) : List Nat × SessionState × Bool :=
  if ¬serverTLSEnabled then ([502], st, true)
  else if st.tlsEnabled then ([503], st, true)
  else if ¬tlsConfigOk then ([220, 454], st, true)
  else if ¬handshakeOk then ([220], st, false)
  else ([220], { st with helo := "", mailFrom := "", rcptTo := [], tlsEnabled := true }, true)

/-- The `DATA` terminator test of `Session.handleData`: the line is at
least 3 bytes long and its first three bytes are `.`, CR, LF. -/
def isDataTerminator (line : Bytes) : Bool :=
  match line with
  | a :: b :: c :: _ => a = '.' ∧ b = '\r' ∧ c = '\n'
  | _ => false

/-- The read loop of `Session.handleData` over the wire lines (each a
`ReadBytes('\n')` result): stop at the terminator, collapse one leading
dot per line, accumulate byte-exactly.  `none` is a read error (input
exhausted before the terminator), on which the session is dropped. -/
def receiveData : List Bytes → Option Bytes
  | [] => none
  | line :: rest =>
    if isDataTerminator line then some []
    else
      let line' := if line.head? = some '.' then line.drop 1 else line
      match receiveData rest with
      | some tail => some (line' ++ tail)
      | none => none

/-- `Session.handleData`: guard on recipients, read the body, process it,
reply 554 on a processing error keeping the envelope, or 250 clearing
it. -/
def handleData (runAction : Action → Bool) (routes : List RouteConfig)
    (st : SessionState) (wire : List Bytes) : List Nat × SessionState × Bool :=
  if st.rcptTo.length = 0 then ([503], st, true)
  else
    match receiveData wire with
    | none => ([354], st, false)
    | some body =>
      let r := processEmail runAction routes st.mailFrom st.rcptTo body
      match r.2.2 with
      | some _ => ([354, 554], { st with dataBuf := body }, true)
      | none => ([354, 250], { st with mailFrom := "", rcptTo := [], dataBuf := [] }, true)

/-- The dot-stuffing a conforming SMTP client applies to one line before
transmission (`net/textproto.DotWriter`): a leading dot is doubled. -/
def dotStuffLine (line : Bytes) : Bytes :=
  if line.head? = some '.' then '.' :: line else line

/-- Client-side transmission of a message body: stuff each line and
append the terminator line. -/
def transmitBody (body : List Bytes) : List Bytes :=
  body.map dotStuffLine ++ [['.', '\r', '\n']]

/-! ## Lemmas: ASCII case mapping and canonical MIME keys -/

theorem toNat_ofNat_valid {n : Nat} (h : n.isValidChar) : (Char.ofNat n).toNat = n := by
  rw [Char.ofNat, dif_pos h]
  rfl

theorem valid_of_le {n : Nat} (h : n ≤ 154) : n.isValidChar :=
  Or.inl (by omega)

theorem asciiLower_of_upper {c : Char} (h : 65 ≤ c.toNat ∧ c.toNat ≤ 90) :
    asciiLower c = Char.ofNat (c.toNat + 32) := by
  rw [asciiLower, if_pos h]

theorem asciiLower_of_other {c : Char} (h : ¬(65 ≤ c.toNat ∧ c.toNat ≤ 90)) :
    asciiLower c = c := by
  rw [asciiLower, if_neg h]

theorem asciiUpper_of_lower {c : Char} (h : 97 ≤ c.toNat ∧ c.toNat ≤ 122) :
    asciiUpper c = Char.ofNat (c.toNat - 32) := by
  rw [asciiUpper, if_pos h]

theorem asciiUpper_of_other {c : Char} (h : ¬(97 ≤ c.toNat ∧ c.toNat ≤ 122)) :
    asciiUpper c = c := by
  rw [asciiUpper, if_neg h]

theorem asciiLower_toNat_of_upper {c : Char} (h : 65 ≤ c.toNat ∧ c.toNat ≤ 90) :
    (asciiLower c).toNat = c.toNat + 32 := by
  rw [asciiLower_of_upper h, toNat_ofNat_valid (valid_of_le (by omega))]

theorem asciiUpper_toNat_of_lower {c : Char} (h : 97 ≤ c.toNat ∧ c.toNat ≤ 122) :
    (asciiUpper c).toNat = c.toNat - 32 := by
  rw [asciiUpper_of_lower h, toNat_ofNat_valid (valid_of_le (by omega))]

theorem asciiLower_asciiUpper (c : Char) : asciiLower (asciiUpper c) = asciiLower c := by
  by_cases h : 97 ≤ c.toNat ∧ c.toNat ≤ 122
  · have ht : (asciiUpper c).toNat = c.toNat - 32 := asciiUpper_toNat_of_lower h
    rw [asciiLower_of_upper (by omega), ht]
    have h2 : c.toNat - 32 + 32 = c.toNat := by omega
    rw [h2, Char.ofNat_toNat, asciiLower_of_other (by omega)]
  · rw [asciiUpper_of_other h]

theorem asciiLower_asciiLower (c : Char) : asciiLower (asciiLower c) = asciiLower c := by
  by_cases h : 65 ≤ c.toNat ∧ c.toNat ≤ 90
  · have ht : (asciiLower c).toNat = c.toNat + 32 := asciiLower_toNat_of_upper h
    rw [asciiLower_of_other (c := asciiLower c) (by omega)]
  · rw [asciiLower_of_other (c := c) h, asciiLower_of_other (c := c) h]

theorem asciiUpper_asciiLower (c : Char) : asciiUpper (asciiLower c) = asciiUpper c := by
  by_cases h : 65 ≤ c.toNat ∧ c.toNat ≤ 90
  · have ht : (asciiLower c).toNat = c.toNat + 32 := asciiLower_toNat_of_upper h
    rw [asciiUpper_of_lower (by omega), ht]
    have h2 : c.toNat + 32 - 32 = c.toNat := by omega
    rw [h2, Char.ofNat_toNat, asciiUpper_of_other (by omega)]
  · rw [asciiLower_of_other h]

theorem asciiUpper_congr_lower {c c' : Char} (h : asciiLower c = asciiLower c') :
    asciiUpper c = asciiUpper c' := by
  rw [← asciiUpper_asciiLower c, h, asciiUpper_asciiLower]

theorem map_asciiLower_canonToggle (u : Bool) (l : List Char) :
    (canonToggle u l).map asciiLower = l.map asciiLower := by
  induction l generalizing u with
  | nil => rfl
  | cons c rest ih =>
    cases u <;>
      simp [canonToggle, ih, asciiLower_asciiUpper, asciiLower_asciiLower]

theorem canonToggle_congr (u : Bool) {l l' : List Char}
    (h : l.map asciiLower = l'.map asciiLower) : canonToggle u l = canonToggle u l' := by
  induction l generalizing u l' with
  | nil =>
    cases l' with
    | nil => rfl
    | cons _ _ => simp at h
  | cons c rest ih =>
    cases l' with
    | nil => simp at h
    | cons c' rest' =>
      simp only [List.map_cons, List.cons.injEq] at h
      have hc : (if u then asciiUpper c else asciiLower c) =
          (if u then asciiUpper c' else asciiLower c') := by
        cases u with
        | true => simpa using asciiUpper_congr_lower h.1
        | false => simpa using by rw [← asciiLower_asciiLower c, h.1, asciiLower_asciiLower]
      simp only [canonToggle, hc]
      exact congrArg _ (ih _ h.2)

theorem canonicalKey_eq_iff {n₁ n₂ : String}
    (h₁ : n₁.data.all validHeaderFieldChar = true)
    (h₂ : n₂.data.all validHeaderFieldChar = true) :
    canonicalMIMEHeaderKey n₁ = canonicalMIMEHeaderKey n₂ ↔
      n₁.data.map asciiLower = n₂.data.map asciiLower := by
  rw [canonicalMIMEHeaderKey, canonicalMIMEHeaderKey, canonicalKeyOpt, canonicalKeyOpt,
    if_pos h₁, if_pos h₂]
  constructor
  · intro h
    have h' : canonToggle true n₁.data = canonToggle true n₂.data := by
      have h2 := congrArg String.data h
      simpa using h2
    rw [← map_asciiLower_canonToggle true n₁.data, ← map_asciiLower_canonToggle true n₂.data, h']
  · intro h
    simp only [Option.getD_some]
    exact congrArg String.mk (canonToggle_congr true h)

/-! ## Lemmas: header multimap -/

theorem headerVals_cons (k₀ : String) (vs : List String) (rest : List (String × List String))
    (k : String) :
    headerVals ((k₀, vs) :: rest) k = if k₀ = k then vs else headerVals rest k := by
  by_cases h : k₀ = k <;> simp [headerVals, List.find?, h]

theorem headerVals_addHeader (m : List (String × List String)) (k' v : String) (k : String) :
    headerVals (addHeader m k' v) k =
      if k' = k then headerVals m k ++ [v] else headerVals m k := by
  induction m with
  | nil =>
    by_cases h : k' = k <;> simp [addHeader, headerVals, List.find?, h]
  | cons kv rest ih =>
    obtain ⟨k₀, vs⟩ := kv
    by_cases h1 : k₀ = k'
    · subst h1
      simp only [addHeader, if_pos rfl]
      by_cases h2 : k₀ = k
      · subst h2
        simp [headerVals_cons]
      · simp [headerVals_cons, h2]
    · simp only [addHeader, if_neg h1]
      rw [headerVals_cons, headerVals_cons, ih]
      by_cases h2 : k₀ = k
      · subst h2
        rw [if_pos rfl, if_pos rfl, if_neg (fun hh => h1 hh.symm)]
      · simp [h2]

theorem headerVals_foldl (ps : List (String × String)) (m : List (String × List String))
    (k : String) :
    headerVals (List.foldl (fun m kv => addHeader m kv.1 kv.2) m ps) k =
      headerVals m k ++ (ps.filter (fun p => p.1 = k)).map Prod.snd := by
  induction ps generalizing m with
  | nil => simp
  | cons p rest ih =>
    simp only [List.foldl_cons, ih, headerVals_addHeader, List.filter_cons]
    by_cases h : p.1 = k <;> simp [h]

theorem headerVals_buildHeaders (ps : List (String × String)) (k : String) :
    headerVals (buildHeaders ps) k = (ps.filter (fun p => p.1 = k)).map Prod.snd := by
  rw [buildHeaders, headerVals_foldl]
  simp [headerVals, List.find?]

theorem headerVals_mapVals (m : List (String × List String)) (f : String → String)
    (k : String) :
    headerVals (m.map (fun kv => (kv.1, kv.2.map f))) k = (headerVals m k).map f := by
  induction m with
  | nil => simp [headerVals, List.find?]
  | cons kv rest ih =>
    obtain ⟨k₀, vs⟩ := kv
    simp only [List.map_cons]
    rw [headerVals_cons, headerVals_cons]
    by_cases h : k₀ = k
    · simp [h]
    · simp [h, ih]

/-! ## Lemmas: shape of `parseEmail` results -/

theorem parseEmail_raw_of_ok {raw : Bytes} {f : String} {t : List String} {e : Email}
    (h : parseEmail raw f t = Except.ok e) : e.raw = raw := by
  unfold parseEmail at h
  dsimp only at h
  repeat' split at h
  all_goals
    first
      | exact Except.noConfusion h
      | (obtain rfl := Except.ok.inj h; rfl)

theorem parseEmail_fields_of_ok {raw : Bytes} {f : String} {t : List String} {e : Email}
    {m : MimeMessage} (h : parseEmail raw f t = Except.ok e)
    (hm : readMessage raw = Except.ok m) :
    e.headers = m.headers.map (fun kv => (kv.1, kv.2.map decodeMIMEHeader)) ∧
    e.toAddrs = t := by
  unfold parseEmail at h
  rw [hm] at h
  dsimp only at h
  repeat' split at h
  all_goals
    first
      | exact Except.noConfusion h
      | (obtain rfl := Except.ok.inj h; exact ⟨rfl, rfl⟩)

theorem parseEmail_ok_of_graceful {raw : Bytes} {f : String} {t : List String}
    {m : MimeMessage} {mt : String} {ps : List (String × String)} {dec : Bytes}
    (hm : readMessage raw = Except.ok m)
    (hct : parseMediaType
        (if headerGet m "Content-Type" = "" then "text/plain"
         else headerGet m "Content-Type") = Except.ok (mt, ps))
    (hmp : hasPrefixStr mt "multipart/" = false)
    (hdec : decodeContent m.body (headerGet m "Content-Transfer-Encoding") = Except.ok dec) :
    ∃ e, parseEmail raw f t = Except.ok e ∧ e.raw = raw := by
  unfold parseEmail
  rw [hm]
  dsimp only
  rw [hct]
  dsimp only
  simp only [hmp, Bool.false_eq_true, if_false, hdec]
  split
  · exact ⟨_, rfl, rfl⟩
  · exact ⟨_, rfl, rfl⟩

theorem parseEmail_error_of_readMessage {raw : Bytes} (f : String) (t : List String)
    {er : String} (hm : readMessage raw = Except.error er) :
    parseEmail raw f t = Except.error ("failed to parse email: " ++ er) := by
  unfold parseEmail
  rw [hm]

theorem parseEmail_error_of_missing_boundary {raw : Bytes} (f : String) (t : List String)
    {m : MimeMessage} {mt : String} {ps : List (String × String)}
    (hm : readMessage raw = Except.ok m)
    (hct : parseMediaType
        (if headerGet m "Content-Type" = "" then "text/plain"
         else headerGet m "Content-Type") = Except.ok (mt, ps))
    (hmp : hasPrefixStr mt "multipart/" = true)
    (hb : paramGet ps "boundary" = "") :
    parseEmail raw f t = Except.error "missing boundary in multipart message" := by
  unfold parseEmail
  rw [hm]
  dsimp only
  rw [hct]
  dsimp only
  simp only [hmp, if_true, hb, if_pos rfl]

/-! ## Lemmas: dot-stuffing round trip -/

theorem isDataTerminator_dotStuff (l : Bytes) : isDataTerminator (dotStuffLine l) = false := by
  cases l with
  | nil => rfl
  | cons c cs =>
    by_cases h : c = '.'
    · subst h
      cases cs with
      | nil => rfl
      | cons b bs => simp [dotStuffLine, isDataTerminator]
    · cases cs with
      | nil => simp [dotStuffLine, isDataTerminator, h]
      | cons b bs =>
        cases bs with
        | nil => simp [dotStuffLine, isDataTerminator, h]
        | cons d ds => simp [dotStuffLine, isDataTerminator, h]

theorem unstuff_dotStuff (l : Bytes) :
    (if (dotStuffLine l).head? = some '.' then (dotStuffLine l).tail
     else dotStuffLine l) = l := by
  cases l with
  | nil => rfl
  | cons c cs =>
    by_cases h : c = '.'
    · subst h
      simp [dotStuffLine]
    · simp [dotStuffLine, h]

theorem receiveData_transmitBody (body : List Bytes) :
    receiveData (transmitBody body) = some body.flatten := by
  induction body with
  | nil => rfl
  | cons l rest ih =>
    show receiveData (dotStuffLine l :: transmitBody rest) = some ((l :: rest).flatten)
    rw [receiveData, if_neg (by simp [isDataTerminator_dotStuff]), ih]
    simp [unstuff_dotStuff]

/-! ## Lemmas: the regex engine implements unanchored substring search -/

theorem nullable_of_rmatch_nil {r : Regex} {l : List Char} (h : RMatch r l) (hl : l = []) :
    nullable r = true := by
  induction h with
  | eps => rfl
  | chr c => simp at hl
  | any c => simp at hl
  | altL h ih => simp [nullable, ih hl]
  | altR h ih => simp [nullable, ih hl]
  | cat h1 h2 ih1 ih2 =>
    obtain ⟨e1, e2⟩ := List.append_eq_nil.mp hl
    simp [nullable, ih1 e1, ih2 e2]
  | starNil => rfl
  | starCons h1 h2 ih1 ih2 => rfl

theorem rmatch_nil_of_nullable {r : Regex} (h : nullable r = true) : RMatch r [] := by
  induction r with
  | void => simp [nullable] at h
  | eps => exact RMatch.eps
  | chr c => simp [nullable] at h
  | any => simp [nullable] at h
  | alt r s ih1 ih2 =>
    simp only [nullable, Bool.or_eq_true] at h
    cases h with
    | inl h => exact RMatch.altL (ih1 h)
    | inr h => exact RMatch.altR (ih2 h)
  | cat r s ih1 ih2 =>
    simp only [nullable, Bool.and_eq_true] at h
    exact (show RMatch _ ([] ++ []) from RMatch.cat (ih1 h.1) (ih2 h.2))
  | star r ih => exact RMatch.starNil

theorem nullable_iff (r : Regex) : nullable r = true ↔ RMatch r [] :=
  ⟨rmatch_nil_of_nullable, fun h => nullable_of_rmatch_nil h rfl⟩

theorem rmatch_of_rderiv {r : Regex} {c : Char} {s : List Char}
    (h : RMatch (rderiv r c) s) : RMatch r (c :: s) := by
  induction r generalizing s with
  | void => simp only [rderiv] at h; cases h
  | eps => simp only [rderiv] at h; cases h
  | chr c0 =>
    simp only [rderiv] at h
    by_cases hc : c = c0
    · rw [if_pos hc] at h
      cases h
      rw [hc]
      exact RMatch.chr c0
    · rw [if_neg hc] at h
      cases h
  | any =>
    simp only [rderiv] at h
    cases h
    exact RMatch.any c
  | alt r1 r2 ih1 ih2 =>
    simp only [rderiv] at h
    cases h with
    | altL h => exact RMatch.altL (ih1 h)
    | altR h => exact RMatch.altR (ih2 h)
  | cat r1 r2 ih1 ih2 =>
    simp only [rderiv] at h
    by_cases hn : nullable r1 = true
    · rw [if_pos hn] at h
      cases h with
      | altL h =>
        cases h with
        | cat h1 h2 => exact RMatch.cat (ih1 h1) h2
      | altR h =>
        exact (show RMatch _ ([] ++ (c :: _)) from
          RMatch.cat (rmatch_nil_of_nullable hn) (ih2 h))
    · rw [if_neg hn] at h
      cases h with
      | cat h1 h2 => exact RMatch.cat (ih1 h1) h2
  | star r ih =>
    simp only [rderiv] at h
    cases h with
    | cat h1 h2 => exact RMatch.starCons (ih h1) h2

theorem rderiv_of_rmatch {r : Regex} {l : List Char} (h : RMatch r l) :
    ∀ c s, l = c :: s → RMatch (rderiv r c) s := by
  induction h with
  | eps => intro c s hl; simp at hl
  | chr c0 =>
    intro c s hl
    injection hl with h1 h2
    subst h1
    subst h2
    simp only [rderiv, if_pos rfl]
    exact RMatch.eps
  | any c0 =>
    intro c s hl
    injection hl with h1 h2
    subst h2
    exact RMatch.eps
  | altL h ih =>
    intro c s hl
    exact RMatch.altL (ih c s hl)
  | altR h ih =>
    intro c s hl
    exact RMatch.altR (ih c s hl)
  | @cat r1 r2 s1 s2 h1 h2 ih1 ih2 =>
    intro c s hl
    cases s1 with
    | nil =>
      simp only [List.nil_append] at hl
      have hn : nullable r1 = true := nullable_of_rmatch_nil h1 rfl
      simp only [rderiv, if_pos hn]
      exact RMatch.altR (ih2 c s hl)
    | cons a s1' =>
      rw [List.cons_append] at hl
      injection hl with hac hrest
      subst hac
      have hd := ih1 a s1' rfl
      simp only [rderiv]
      by_cases hn : nullable r1 = true
      · rw [if_pos hn]
        exact RMatch.altL (hrest ▸ RMatch.cat hd h2)
      · rw [if_neg hn]
        exact hrest ▸ RMatch.cat hd h2
  | starNil => intro c s hl; simp at hl
  | @starCons r s1 t h1 h2 ih1 ih2 =>
    intro c s hl
    cases s1 with
    | nil =>
      simp only [List.nil_append] at hl
      exact ih2 c s hl
    | cons a s1' =>
      rw [List.cons_append] at hl
      injection hl with hac hrest
      subst hac
      simp only [rderiv]
      exact hrest ▸ RMatch.cat (ih1 a s1' rfl) h2

theorem matchHere_iff (r : Regex) (s : List Char) :
    matchHere r s = true ↔ ∃ p q, p ++ q = s ∧ RMatch r p := by
  induction s generalizing r with
  | nil =>
    simp only [matchHere]
    rw [nullable_iff]
    constructor
    · intro h
      exact ⟨[], [], rfl, h⟩
    · rintro ⟨p, q, hpq, hp⟩
      obtain ⟨rfl, rfl⟩ := List.append_eq_nil.mp hpq
      exact hp
  | cons c rest ih =>
    simp only [matchHere, Bool.or_eq_true]
    constructor
    · rintro (h | h)
      · exact ⟨[], c :: rest, rfl, (nullable_iff r).mp h⟩
      · obtain ⟨p, q, hpq, hp⟩ := (ih (rderiv r c)).mp h
        exact ⟨c :: p, q, by simp [hpq], rmatch_of_rderiv hp⟩
    · rintro ⟨p, q, hpq, hp⟩
      cases p with
      | nil =>
        left
        exact (nullable_iff r).mpr hp
      | cons a p' =>
        right
        rw [List.cons_append] at hpq
        injection hpq with h1 h2
        subst h1
        exact (ih (rderiv r a)).mpr ⟨p', q, h2, rderiv_of_rmatch hp a p' rfl⟩

theorem searchFrom_iff (r : Regex) (s : List Char) :
    searchFrom r s = true ↔ ∃ pre mid suf, pre ++ mid ++ suf = s ∧ RMatch r mid := by
  induction s with
  | nil =>
    simp only [searchFrom]
    rw [nullable_iff]
    constructor
    · intro h
      exact ⟨[], [], [], rfl, h⟩
    · rintro ⟨pre, mid, suf, hs, hm⟩
      obtain ⟨h1, rfl⟩ := List.append_eq_nil.mp hs
      obtain ⟨rfl, rfl⟩ := List.append_eq_nil.mp h1
      exact hm
  | cons c rest ih =>
    simp only [searchFrom, Bool.or_eq_true, matchHere_iff, ih]
    constructor
    · rintro (⟨p, q, hpq, hp⟩ | ⟨pre, mid, suf, hs, hm⟩)
      · exact ⟨[], p, q, by simp [hpq], hp⟩
      · exact ⟨c :: pre, mid, suf, by simp [hs], hm⟩
    · rintro ⟨pre, mid, suf, hs, hm⟩
      cases pre with
      | nil =>
        left
        exact ⟨mid, suf, by simpa using hs, hm⟩
      | cons a pre' =>
        right
        have h1 : a = c ∧ pre' ++ mid ++ suf = rest := by simpa using hs
        exact ⟨pre', mid, suf, h1.2, hm⟩

theorem regexpMatch_iff (rx : Regex) (s : String) :
    regexpMatch rx s = true ↔
      ∃ pre mid suf, pre ++ mid ++ suf = s.data ∧ RMatch rx mid := by
  rw [regexpMatch]
  exact searchFrom_iff rx s.data

/-! ## Lemmas: routing engine -/

theorem condCheck_iff (pat : String) (test : Regex → Bool) :
    (if pat ≠ "" then
       match regexpCompile pat with
       | none => false
       | some rx => test rx
     else true) = true ↔
      (pat = "" ∨ ∃ rx, regexpCompile pat = some rx ∧ test rx = true) := by
  by_cases h : pat = ""
  · simp [h]
  · rw [if_pos h]
    cases hc : regexpCompile pat with
    | none => simp [h, hc]
    | some rx => simp [h, hc]

theorem findMatchingRoutes_eq_filter (email : Email) (routes : List RouteConfig) :
    findMatchingRoutes email routes = routes.filter (fun r => routeMatches email r) := by
  induction routes with
  | nil => rfl
  | cons r rest ih =>
    by_cases h : routeMatches email r <;>
      simp [findMatchingRoutes, List.filter_cons, h, ih]

theorem getEnabledRoutes_eq_filter (routes : List RouteConfig) :
    getEnabledRoutes routes = routes.filter (fun r => r.enabled) := by
  induction routes with
  | nil => rfl
  | cons r rest ih =>
    by_cases h : r.enabled <;> simp [getEnabledRoutes, List.filter_cons, h, ih]

/-! ## Lemmas: action dispatch -/

theorem executeRoute_all_ok (runAction : Action → Bool) (actions : List Action)
    (h : ∀ a ∈ actions.filter (fun a => a.enabled && knownActionType a.type),
      runAction a = true) :
    executeRoute runAction actions =
      (actions.filter (fun a => a.enabled && knownActionType a.type), none) := by
  induction actions with
  | nil => rfl
  | cons a rest ih =>
    by_cases he : a.enabled
    · by_cases hk : knownActionType a.type
      · have hmem : a ∈ (a :: rest).filter (fun a => a.enabled && knownActionType a.type) := by
          simp [List.filter_cons, he, hk]
        have hra : runAction a = true := h a hmem
        have hrest : ∀ b ∈ rest.filter (fun a => a.enabled && knownActionType a.type),
            runAction b = true := by
          intro b hb
          exact h b (by simp [List.filter_cons, he, hk, hb])
        simp [executeRoute, he, hk, hra, ih hrest, List.filter_cons]
      · have hrest : ∀ b ∈ rest.filter (fun a => a.enabled && knownActionType a.type),
            runAction b = true := by
          intro b hb
          exact h b (by simp [List.filter_cons, hk, hb])
        simp [executeRoute, he, hk, ih hrest, List.filter_cons]
    · have hrest : ∀ b ∈ rest.filter (fun a => a.enabled && knownActionType a.type),
          runAction b = true := by
        intro b hb
        exact h b (by simp [List.filter_cons, he, hb])
      simp [executeRoute, he, ih hrest, List.filter_cons]

theorem executeRoute_first_fail (runAction : Action → Bool) (actions : List Action)
    (pre post : List Action) (b : Action)
    (hsplit : actions.filter (fun a => a.enabled && knownActionType a.type) =
      pre ++ b :: post)
    (hpre : ∀ a ∈ pre, runAction a = true) (hb : runAction b = false) :
    executeRoute runAction actions = (pre ++ [b], some (actionFailMsg b.type)) := by
  induction actions generalizing pre with
  | nil => simp at hsplit
  | cons a rest ih =>
    by_cases he : a.enabled
    · by_cases hk : knownActionType a.type
      · rw [List.filter_cons, if_pos (by simp [he, hk])] at hsplit
        cases pre with
        | nil =>
          simp only [List.nil_append] at hsplit
          injection hsplit with h1 h2
          subst h1
          simp [executeRoute, he, hk, hb]
        | cons p pre' =>
          rw [List.cons_append] at hsplit
          injection hsplit with h1 h2
          subst h1
          have hra : runAction a = true := hpre a (List.mem_cons_self a pre')
          have := ih pre' h2 (fun x hx => hpre x (List.mem_cons_of_mem a hx))
          simp [executeRoute, he, hk, hra, this]
      · rw [List.filter_cons, if_neg (by simp [hk])] at hsplit
        simp [executeRoute, he, hk, ih pre hsplit hpre]
    · rw [List.filter_cons, if_neg (by simp [he])] at hsplit
      simp [executeRoute, he, ih pre hsplit hpre]

theorem dispatchList_fst (runAction : Action → Bool) (rs : List RouteConfig) :
    (dispatchList runAction rs).1 =
      rs.flatMap (fun r => (executeRoute runAction r.actions).1.map (fun a => (r.name, a))) := by
  induction rs with
  | nil => rfl
  | cons r rest ih =>
    simp only [dispatchList, List.flatMap_cons, ih]

theorem dispatchList_snd (runAction : Action → Bool) (rs : List RouteConfig) :
    (dispatchList runAction rs).2 =
      rs.filterMap (fun r => ((executeRoute runAction r.actions).2).map
        (fun e => "Failed to execute route " ++ r.name ++ ": " ++ e)) := by
  induction rs with
  | nil => rfl
  | cons r rest ih =>
    cases hr : (executeRoute runAction r.actions).2 with
    | none => simp [dispatchList, hr, ih, List.filterMap_cons]
    | some e => simp [dispatchList, hr, ih, List.filterMap_cons]

/-! ## Lemmas: webhook retry loop -/

theorem retryLoop_attempts_le (sendOk : Nat → Bool) (a n : Nat) :
    (retryLoop sendOk a n).2.1 ≤ n := by
  induction n generalizing a with
  | zero => simp [retryLoop]
  | succ n ih =>
    simp only [retryLoop, sendWebhook]
    by_cases h : sendOk a
    · simp [h]
    · simp only [h, Bool.false_eq_true, if_false]
      exact Nat.succ_le_succ (ih (a + 1))

theorem retryLoop_ok_iff (sendOk : Nat → Bool) (a n : Nat) :
    (retryLoop sendOk a n).1 = Except.ok () ↔
      ∃ k, a ≤ k ∧ k < a + n ∧ sendOk k = true := by
  induction n generalizing a with
  | zero =>
    simp only [retryLoop]
    constructor
    · intro h
      exact absurd h (by simp)
    · rintro ⟨k, h1, h2, _⟩
      omega
  | succ n ih =>
    simp only [retryLoop, sendWebhook]
    by_cases h : sendOk a
    · simp only [h, if_true]
      constructor
      · intro _
        exact ⟨a, Nat.le_refl a, by omega, h⟩
      · intro _
        trivial
    · simp only [h, Bool.false_eq_true, if_false]
      rw [ih (a + 1)]
      constructor
      · rintro ⟨k, h1, h2, h3⟩
        exact ⟨k, by omega, by omega, h3⟩
      · rintro ⟨k, h1, h2, h3⟩
        have hka : k ≠ a := fun hh => by
          subst hh
          simp [h3] at h
        exact ⟨k, by omega, by omega, h3⟩

theorem retryLoop_all_fail (sendOk : Nat → Bool) (n : Nat) :
    ∀ a, (∀ k, a ≤ k → k < a + n → sendOk k = false) →
    retryLoop sendOk a n =
      (Except.error "webhook failed after all attempts", n,
        ((List.range' a n).filter (fun k => 0 < k)).map (fun k => k * k)) := by
  induction n with
  | zero => intro a _; rfl
  | succ n ih =>
    intro a h
    have ha : sendOk a = false := h a (Nat.le_refl a) (by omega)
    have hrest := ih (a + 1) (fun k h1 h2 => h k (by omega) (by omega))
    simp only [retryLoop, sendWebhook, ha, Bool.false_eq_true, if_false, hrest,
      List.range'_succ, List.filter_cons]
    by_cases h0 : 0 < a
    · simp [h0]
    · simp [h0, Nat.eq_zero_of_not_pos h0]

theorem executeWebhook_single_attempt (sendOk : Nat → Bool) (action : Action)
    (h : paramGet action.config "url" ≠ "") :
    executeWebhook sendOk action = (sendWebhook sendOk 0, 1) := by
  unfold executeWebhook
  rw [if_neg h]
  cases hs : sendWebhook sendOk 0 with
  | ok u => cases u; rfl
  | error e => rfl

end EmailCatch

open EmailCatch

/-- C4: transfer decoding is claimed to decode content declared
quoted-printable (`=41=42` becoming `AB`).  Evaluating `decodeContent` at
that very input shows the code instead returns the bytes unchanged: the
quoted-printable arm reads the data back without ever invoking a
quoted-printable decoder, and the result differs from the decoded form
`AB` the claim requires. -/
theorem decodeContent_quoted_printable_is_passthrough :
    decodeContent "=41=42".data "quoted-printable" = Except.ok "=41=42".data ∧
    "=41=42".data ≠ "AB".data := by
  exact ⟨by decide, by decide⟩


/-- C10: after HELO/EHLO, `MAIL FROM:<>` (the null reverse-path) is
accepted with 250 but stores the empty string as `mailFrom`, so every
subsequent RCPT in the transaction is rejected with 503 as if no MAIL
command had been issued. -/
theorem null_reverse_path_blocks_rcpt (st : SessionState) (h : st.helo ≠ "") :
    handleMail st "FROM:<>" = ([250], { st with mailFrom := "", rcptTo := [] }) ∧
    ∀ args : String,
      handleRcpt { st with mailFrom := "", rcptTo := [] } args =
        ([503], { st with mailFrom := "", rcptTo := [] }) := by
  constructor
  · have h1 : hasPrefixStr (upperStr "FROM:<>") "FROM:" = true := by decide
    have h2 : stripAngle (trimStr ⟨"FROM:<>".data.drop 5⟩) = "" := by decide
    rw [handleMail, if_neg h, if_neg (by simp [h1]), h2]
  · intro args
    rw [handleRcpt, if_pos rfl]

/-- Witness for C10 at a concrete greeted session. -/
theorem null_reverse_path_blocks_rcpt_witness :
    handleMail ⟨"client.example", "old@x", ["r@x"], [], false⟩ "FROM:<>" =
      ([250], ⟨"client.example", "", [], [], false⟩) ∧
    handleRcpt ⟨"client.example", "", [], [], false⟩ "TO:<a@b.com>" =
      ([503], ⟨"client.example", "", [], [], false⟩) := by
  have h := null_reverse_path_blocks_rcpt ⟨"client.example", "old@x", ["r@x"], [], false⟩
    (by decide)
  exact ⟨h.1, h.2 "TO:<a@b.com>"⟩

/-- C9: STARTTLS is rejected with 502 when TLS is disabled and 503 when
TLS is already active (a second STARTTLS therefore gets 503), and after a
successful handshake the stored heloDomain, mailFrom and rcptTo are all
empty. -/
theorem starttls_rejections_and_reset (cfgOk hsOk serverTLS : Bool) (st : SessionState) :
    (serverTLS = false → handleStartTLS cfgOk hsOk serverTLS st = ([502], st, true)) ∧
    (serverTLS = true → st.tlsEnabled = true →
      handleStartTLS cfgOk hsOk serverTLS st = ([503], st, true)) ∧
    (serverTLS = true → st.tlsEnabled = false → cfgOk = true → hsOk = true →
      handleStartTLS cfgOk hsOk serverTLS st =
        ([220], { st with helo := "", mailFrom := "", rcptTo := [], tlsEnabled := true },
          true) ∧
      ∀ cfgOk' hsOk',
        handleStartTLS cfgOk' hsOk' true
            { st with helo := "", mailFrom := "", rcptTo := [], tlsEnabled := true } =
          ([503], { st with helo := "", mailFrom := "", rcptTo := [], tlsEnabled := true },
            true)) := by
  refine ⟨?_, ?_, ?_⟩
  · intro h
    subst h
    simp [handleStartTLS]
  · intro h1 h2
    subst h1
    simp [handleStartTLS, h2]
  · intro h1 h2 h3 h4
    subst h1
    subst h3
    subst h4
    constructor
    · simp [handleStartTLS, h2]
    · intro cfgOk' hsOk'
      simp [handleStartTLS]

/-- Witness for C9: a full successful upgrade then a second STARTTLS. -/
theorem starttls_rejections_and_reset_witness :
    handleStartTLS true true true ⟨"h.example", "m@x", ["r@x"], [], false⟩ =
      ([220], ⟨"", "", [], [], true⟩, true) ∧
    handleStartTLS true true true ⟨"", "", [], [], true⟩ =
      ([503], ⟨"", "", [], [], true⟩, true) ∧
    handleStartTLS true true false ⟨"h.example", "m@x", ["r@x"], [], false⟩ =
      ([502], ⟨"h.example", "m@x", ["r@x"], [], false⟩, true) := by
  have h := starttls_rejections_and_reset true true true ⟨"h.example", "m@x", ["r@x"], [], false⟩
  have h2 := (h.2.2 rfl rfl rfl rfl)
  have h3 := starttls_rejections_and_reset true true false
    ⟨"h.example", "m@x", ["r@x"], [], false⟩
  exact ⟨h2.1, h2.2 true true, h3.1 rfl⟩

/-- C5: for a submitted message body none of whose lines is the bare-dot
terminator line, the bytes accumulated by the DATA loop from the
dot-stuffed transmission are exactly the original bytes (each
sender-doubled leading dot collapsed, nothing else altered), and parsing
the stored bytes yields an Email whose `ToEML` output reproduces them
exactly. -/
theorem dot_stuffing_round_trip (body : List Bytes) (f : String) (t : List String)
    (_hnodot : ∀ l ∈ body, l ≠ ['.', '\r', '\n']) :
    receiveData (transmitBody body) = some body.flatten ∧
    ∀ e : Email, parseEmail body.flatten f t = Except.ok e → e.ToEML = body.flatten := by
  refine ⟨receiveData_transmitBody body, fun e he => parseEmail_raw_of_ok he⟩

/-- Witness for C5: a message whose last line starts with a dot. -/
theorem dot_stuffing_round_trip_witness :
    receiveData (transmitBody
        ["Subject: t\r\n".data, "\r\n".data, ".hi\r\n".data]) =
      some ("Subject: t\r\n\r\n.hi\r\n".data) ∧
    Email.ToEML ⟨"f", ["t"], "t", none, "", [("Subject", ["t"])], ".hi\x0d\n", "", [],
        "Subject: t\r\n\r\n.hi\r\n".data⟩ =
      "Subject: t\r\n\r\n.hi\r\n".data := by
  have h := dot_stuffing_round_trip
    ["Subject: t\r\n".data, "\r\n".data, ".hi\r\n".data] "f" ["t"] (by decide)
  refine ⟨by simpa using h.1, ?_⟩
  exact h.2 _ (by decide)


/-- C2 (amended): a completed DATA transaction replies 554 and keeps the
connection open exactly when the parse step fails — the envelope
(`mailFrom`/`rcptTo`) is retained, not reset; when the parse step
succeeds the session replies 250 and clears `mailFrom` and `rcptTo`
whatever the dispatch outcomes were (route-execution failures are only
logged and never surface as 554). -/
theorem handleData_reply_policy (runAction : Action → Bool) (routes : List RouteConfig)
    (st : SessionState) (wire : List Bytes) (body : Bytes)
    (hrcpt : st.rcptTo ≠ [])
    (hrecv : receiveData wire = some body) :
    (∀ er, parseEmail body st.mailFrom st.rcptTo = Except.error er →
      handleData runAction routes st wire = ([354, 554], { st with dataBuf := body }, true)) ∧
    (∀ e, parseEmail body st.mailFrom st.rcptTo = Except.ok e →
      handleData runAction routes st wire =
        ([354, 250], { st with mailFrom := "", rcptTo := [], dataBuf := [] }, true)) := by
  have hlen : ¬(st.rcptTo.length = 0) := by
    simpa [List.length_eq_zero] using hrcpt
  constructor
  · intro er hx
    simp [handleData, hlen, hrecv, processEmail, hx]
  · intro e hx
    simp [handleData, hlen, hrecv, processEmail, hx]

/-- Witness for C2's amended statement: a parse failure replies 554 with
the envelope retained; a parse success replies 250 with it cleared. -/
theorem handleData_reply_policy_witness :
    handleData (fun _ => true) [] ⟨"c", "s@x", ["r@x"], [], false⟩
        ["bad\r\n".data, ".\r\n".data] =
      ([354, 554], ⟨"c", "s@x", ["r@x"], "bad\r\n".data, false⟩, true) ∧
    handleData (fun _ => true) [] ⟨"c", "s@x", ["r@x"], [], false⟩
        ["Subject: t\r\n".data, "\r\n".data, "hi\r\n".data, ".\r\n".data] =
      ([354, 250], ⟨"c", "", [], [], false⟩, true) := by
  have h1 := handleData_reply_policy (fun _ => true) [] ⟨"c", "s@x", ["r@x"], [], false⟩
    ["bad\r\n".data, ".\r\n".data] "bad\r\n".data (by decide) (by decide)
  have h2 := handleData_reply_policy (fun _ => true) [] ⟨"c", "s@x", ["r@x"], [], false⟩
    ["Subject: t\r\n".data, "\r\n".data, "hi\r\n".data, ".\r\n".data]
    "Subject: t\r\n\r\nhi\r\n".data (by decide) (by decide)
  exact ⟨h1.1 "failed to parse email: failed to read header block" (by decide),
    h2.2 ⟨"s@x", ["r@x"], "t", none, "", [("Subject", ["t"])], "hi\x0d\n", "", [],
      "Subject: t\r\n\r\nhi\r\n".data⟩ (by decide)⟩

/-- C2 (counterexample): a transaction whose dispatch step fails — the
only matched rule's only action fails and the failure is logged — still
replies 250, not the claimed 554, and clears the envelope. -/
theorem handleData_dispatch_failure_replies_250 :
    handleData (fun _ => false)
        [⟨"r1", ⟨"", "", ""⟩, [⟨"store_local", [], true⟩], true⟩]
        ⟨"c", "s@x", ["r@x"], [], false⟩
        ["Subject: t\r\n".data, "\r\n".data, "hi\r\n".data, ".\r\n".data] =
      ([354, 250], ⟨"c", "", [], [], false⟩, true) ∧
    (processEmail (fun _ => false)
        [⟨"r1", ⟨"", "", ""⟩, [⟨"store_local", [], true⟩], true⟩]
        "s@x" ["r@x"] "Subject: t\r\n\r\nhi\r\n".data).2.1 =
      ["Failed to execute route r1: local storage action failed"] := by
  exact ⟨by decide, by decide⟩

/-- C3 (counterexample): an input whose header block parses and which
declares no multipart content type — it has no Content-Type header at
all — still hard-fails, because its declared base64 transfer encoding
does not decode; so header failure and a missing multipart boundary are
not the only hard failures. -/
theorem parseEmail_base64_hard_failure :
    parseEmail "Subject: t\r\nContent-Transfer-Encoding: base64\r\n\r\n!!!".data
        "f" ["t"] =
      Except.error "failed to decode message body: failed to decode base64" ∧
    (readMessage "Subject: t\r\nContent-Transfer-Encoding: base64\r\n\r\n!!!".data).map
        (fun m => headerGet m "Content-Type") =
      Except.ok "" := by
  exact ⟨by decide, by decide⟩

/-- C3 (amended): the parser hard-fails on an unparseable header block
and on a declared multipart without boundary, but those are not the only
hard failures — an unparseable top-level Content-Type, an undecodable
base64 body, or a malformed multipart part also fail hard.  Conversely a
non-multipart message whose header block parses, whose effective
Content-Type value parses and whose declared transfer encoding decodes
(every encoding other than base64 always does) yields an Email:
unparseable dates, undecodable encoded-words and unknown encodings all
degrade gracefully. -/
theorem parseEmail_failure_policy :
    (∀ (raw : Bytes) (f : String) (t : List String) (er : String),
      readMessage raw = Except.error er →
      parseEmail raw f t = Except.error ("failed to parse email: " ++ er)) ∧
    (∀ (raw : Bytes) (f : String) (t : List String) (m : MimeMessage) (mt : String)
        (ps : List (String × String)),
      readMessage raw = Except.ok m →
      parseMediaType (if headerGet m "Content-Type" = "" then "text/plain"
        else headerGet m "Content-Type") = Except.ok (mt, ps) →
      hasPrefixStr mt "multipart/" = true →
      paramGet ps "boundary" = "" →
      parseEmail raw f t = Except.error "missing boundary in multipart message") ∧
    (∀ (raw : Bytes) (f : String) (t : List String) (m : MimeMessage) (mt : String)
        (ps : List (String × String)) (dec : Bytes),
      readMessage raw = Except.ok m →
      parseMediaType (if headerGet m "Content-Type" = "" then "text/plain"
        else headerGet m "Content-Type") = Except.ok (mt, ps) →
      hasPrefixStr mt "multipart/" = false →
      decodeContent m.body (headerGet m "Content-Transfer-Encoding") = Except.ok dec →
      ∃ e, parseEmail raw f t = Except.ok e ∧ e.raw = raw) := by
  refine ⟨?_, ?_, ?_⟩
  · intro raw f t er hm
    exact parseEmail_error_of_readMessage f t hm
  · intro raw f t m mt ps hm hct hmp hb
    exact parseEmail_error_of_missing_boundary f t hm hct hmp hb
  · intro raw f t m mt ps dec hm hct hmp hdec
    exact parseEmail_ok_of_graceful hm hct hmp hdec

/-- Witness for C3's amended statement at three concrete inputs: a header
line without a colon, a multipart without boundary, and a plain message
that parses. -/
theorem parseEmail_failure_policy_witness :
    parseEmail "no colon line\r\n\r\nx".data "f" ["t"] =
      Except.error "failed to parse email: malformed MIME header line" ∧
    parseEmail "Content-Type: multipart/mixed\r\n\r\nx".data "f" ["t"] =
      Except.error "missing boundary in multipart message" ∧
    ∃ e, parseEmail "Subject: ok\r\n\r\nhello".data "f" ["t"] = Except.ok e ∧
      e.raw = "Subject: ok\r\n\r\nhello".data := by
  have h := parseEmail_failure_policy
  refine ⟨h.1 _ "f" ["t"] _ (by decide), ?_, ?_⟩
  · exact h.2.1 _ "f" ["t"] ⟨[("Content-Type", ["multipart/mixed"])], "x".data⟩
      "multipart/mixed" [] (by decide) (by decide) (by decide) (by decide)
  · exact h.2.2 _ "f" ["t"] ⟨[("Subject", ["ok"])], "hello".data⟩
      "text/plain" [] "hello".data (by decide) (by decide) (by decide) (by decide)


/-- C8 (counterexample): a header arriving on the wire as `mYheader` is
stored under the canonical MIME key `Myheader`, not under its original
wire casing, so the Headers mapping does not retain the name's original
casing. -/
theorem headers_canonicalized_not_original_casing :
    (parseEmail "mYheader: v\r\n\r\nb".data "f" ["t"]).map Email.headers =
      Except.ok [("Myheader", ["v"])] ∧
    ("Myheader" : String) ≠ "mYheader" := by
  exact ⟨by decide, by decide⟩

/-- C8 (amended): every header value is retained (RFC 2047 decoded) in
arrival order, but under the canonical MIME form of its name rather than
the original wire casing; lookups are case-insensitive in the sense that
two valid wire names canonicalize to the same key exactly when they are
equal up to ASCII case. -/
theorem headers_arrival_order_canonical_keys :
    (∀ (raw : Bytes) (f : String) (t : List String) (ps : List (String × String))
        (body : Bytes) (e : Email),
      readHeaderPairs raw = Except.ok (ps, body) →
      parseEmail raw f t = Except.ok e →
      ∀ key, headerVals e.headers key =
        ((ps.filter (fun p => p.1 = key)).map Prod.snd).map decodeMIMEHeader) ∧
    (∀ n₁ n₂ : String, n₁.data.all validHeaderFieldChar = true →
      n₂.data.all validHeaderFieldChar = true →
      (canonicalMIMEHeaderKey n₁ = canonicalMIMEHeaderKey n₂ ↔
        n₁.data.map asciiLower = n₂.data.map asciiLower)) := by
  constructor
  · intro raw f t ps body e hps he key
    have hm : readMessage raw = Except.ok ⟨buildHeaders ps, body⟩ := by
      unfold readMessage
      rw [hps]
    have hf := (parseEmail_fields_of_ok he hm).1
    rw [hf]
    show headerVals ((buildHeaders ps).map
      (fun kv => (kv.1, kv.2.map decodeMIMEHeader))) key = _
    rw [headerVals_mapVals, headerVals_buildHeaders, List.map_map]
  · intro n₁ n₂ h₁ h₂
    exact canonicalKey_eq_iff h₁ h₂

/-- Witness for C8's amended statement: two case-variant spellings of one
header name merge into one canonical entry holding both values in
arrival order. -/
theorem headers_arrival_order_canonical_keys_witness :
    headerVals
        (Email.headers ⟨"f", ["t"], "", none, "", [("X-A", ["1", "2"])], "b", "", [],
          "X-A: 1\r\nx-a: 2\r\n\r\nb".data⟩) "X-A" =
      ["1", "2"] ∧
    (canonicalMIMEHeaderKey "mYheader" = canonicalMIMEHeaderKey "MYHEADER" ↔
      "mYheader".data.map asciiLower = "MYHEADER".data.map asciiLower) := by
  have h := headers_arrival_order_canonical_keys
  refine ⟨?_, h.2 "mYheader" "MYHEADER" (by decide) (by decide)⟩
  have h1 := h.1 "X-A: 1\r\nx-a: 2\r\n\r\nb".data "f" ["t"]
    [("X-A", "1"), ("X-A", "2")] "b".data
    ⟨"f", ["t"], "", none, "", [("X-A", ["1", "2"])], "b", "", [],
      "X-A: 1\r\nx-a: 2\r\n\r\nb".data⟩
    (by decide) (by decide) "X-A"
  simpa using h1

/-- C7 (counterexample): a webhook whose delivery would succeed on any
retry — the attempt oracle fails only at attempt 0 — is still reported
failed by the dispatcher after exactly one attempt, because
`executeWebhook` calls the single-shot `SendWebhook`; the unused retry
helper would have succeeded. -/
theorem executeWebhook_makes_no_retry :
    executeWebhook (fun n => decide (0 < n))
        ⟨"webhook", [("url", "http://example.com/hook")], true⟩ =
      (Except.error "failed to send webhook", 1) ∧
    (sendWebhookWithRetry (fun n => decide (0 < n)) 3).1 = Except.ok () := by
  exact ⟨by decide, by decide⟩

/-- C7 (amended): the dispatcher's webhook action performs exactly one
delivery attempt and reports its outcome directly.  The client's
`SendWebhookWithRetry` — which the dispatcher never calls — makes at most
`maxRetries + 1` attempts, succeeds iff some attempt in that budget
succeeds, and when all attempts fail it reports failure only after all of
them, having slept `attempt²` seconds before each attempt after the
first (a quadratically, not exponentially, growing backoff). -/
theorem webhook_retry_semantics (sendOk : Nat → Bool) (maxRetries : Nat) (action : Action) :
    (paramGet action.config "url" ≠ "" →
      executeWebhook sendOk action = (sendWebhook sendOk 0, 1)) ∧
    (sendWebhookWithRetry sendOk maxRetries).2.1 ≤ maxRetries + 1 ∧
    ((sendWebhookWithRetry sendOk maxRetries).1 = Except.ok () ↔
      ∃ k, k ≤ maxRetries ∧ sendOk k = true) ∧
    ((∀ k, k ≤ maxRetries → sendOk k = false) →
      sendWebhookWithRetry sendOk maxRetries =
        (Except.error "webhook failed after all attempts", maxRetries + 1,
          ((List.range' 0 (maxRetries + 1)).filter (fun k => 0 < k)).map
            (fun k => k * k))) := by
  refine ⟨fun h => executeWebhook_single_attempt sendOk action h, ?_, ?_, ?_⟩
  · exact retryLoop_attempts_le sendOk 0 (maxRetries + 1)
  · rw [sendWebhookWithRetry, retryLoop_ok_iff]
    constructor
    · rintro ⟨k, h1, h2, h3⟩
      exact ⟨k, by omega, h3⟩
    · rintro ⟨k, h1, h3⟩
      exact ⟨k, by omega, by omega, h3⟩
  · intro h
    rw [sendWebhookWithRetry]
    exact retryLoop_all_fail sendOk (maxRetries + 1) 0 (fun k h1 h2 => h k (by omega))

/-- Witness for C7's amended statement: one failing oracle, three
retries. -/
theorem webhook_retry_semantics_witness :
    executeWebhook (fun _ => false) ⟨"webhook", [("url", "http://h/x")], true⟩ =
      (sendWebhook (fun _ => false) 0, 1) ∧
    sendWebhookWithRetry (fun _ => false) 3 =
      (Except.error "webhook failed after all attempts", 4, [1, 4, 9]) := by
  have h := webhook_retry_semantics (fun _ => false) 3 ⟨"webhook", [("url", "http://h/x")], true⟩
  refine ⟨h.1 (by decide), ?_⟩
  have h4 := h.2.2.2 (fun k _ => rfl)
  simpa using h4


/-- C1 (counterexample): a rule whose webhook action precedes its
store_local action: when the webhook fails, the dispatcher logs the
failure but never attempts the store_local action of the same rule — the
failing action aborts the remaining actions of its rule. -/
theorem failing_webhook_aborts_rest_of_rule :
    dispatchRoutes (fun a => a.type != "webhook")
        ⟨"s@x", ["r@x"], "subj", none, "", [], "", "", [], []⟩
        [⟨"r1", ⟨"", "", ""⟩,
          [⟨"webhook", [("url", "http://h/x")], true⟩,
           ⟨"store_local", [("folder", "f")], true⟩], true⟩] =
      ([("r1", ⟨"webhook", [("url", "http://h/x")], true⟩)],
       ["Failed to execute route r1: webhook action failed"]) ∧
    ("r1", (⟨"store_local", [("folder", "f")], true⟩ : Action)) ∉
      (dispatchRoutes (fun a => a.type != "webhook")
        ⟨"s@x", ["r@x"], "subj", none, "", [], "", "", [], []⟩
        [⟨"r1", ⟨"", "", ""⟩,
          [⟨"webhook", [("url", "http://h/x")], true⟩,
           ⟨"store_local", [("folder", "f")], true⟩], true⟩]).1 := by
  exact ⟨by decide, by decide⟩

/-- C1 (amended): matched rules are isolated from one another — the
dispatch trace and logged failures decompose rule by rule over the
matched enabled rules in configuration order, so a failure in one rule
never affects another.  Within one rule, the enabled known actions run in
declared order only up to and including the first failing one: actions
before it (for instance a store_local ordered before a failing webhook)
are executed, actions after it are not; when no enabled action fails, all
enabled known actions of the rule execute. -/
theorem dispatch_failure_isolation (runAction : Action → Bool) (email : Email)
    (routes : List RouteConfig) :
    (dispatchRoutes runAction email routes).1 =
      (findMatchingRoutes email (getEnabledRoutes routes)).flatMap
        (fun r => (executeRoute runAction r.actions).1.map (fun a => (r.name, a))) ∧
    (dispatchRoutes runAction email routes).2 =
      (findMatchingRoutes email (getEnabledRoutes routes)).filterMap
        (fun r => ((executeRoute runAction r.actions).2).map
          (fun e => "Failed to execute route " ++ r.name ++ ": " ++ e)) ∧
    (∀ (actions pre post : List Action) (b : Action),
      actions.filter (fun a => a.enabled && knownActionType a.type) = pre ++ b :: post →
      (∀ a ∈ pre, runAction a = true) → runAction b = false →
      executeRoute runAction actions = (pre ++ [b], some (actionFailMsg b.type))) ∧
    (∀ actions : List Action,
      (∀ a ∈ actions.filter (fun a => a.enabled && knownActionType a.type),
        runAction a = true) →
      executeRoute runAction actions =
        (actions.filter (fun a => a.enabled && knownActionType a.type), none)) := by
  refine ⟨dispatchList_fst runAction _, dispatchList_snd runAction _, ?_, ?_⟩
  · intro actions pre post b hsplit hpre hb
    exact executeRoute_first_fail runAction actions pre post b hsplit hpre hb
  · intro actions h
    exact executeRoute_all_ok runAction actions h

/-- Witness for C1's amended statement: a store_local before a failing
webhook before a store_s3 — the store runs, the webhook fails, the s3
store is skipped, and a second matched rule still runs. -/
theorem dispatch_failure_isolation_witness :
    executeRoute (fun a => a.type != "webhook")
        [⟨"store_local", [], true⟩, ⟨"webhook", [], true⟩, ⟨"store_s3", [], true⟩] =
      ([⟨"store_local", [], true⟩, ⟨"webhook", [], true⟩],
        some "webhook action failed") ∧
    (dispatchRoutes (fun a => a.type != "webhook")
        ⟨"s@x", ["r@x"], "subj", none, "", [], "", "", [], []⟩
        [⟨"r1", ⟨"", "", ""⟩,
          [⟨"store_local", [], true⟩, ⟨"webhook", [], true⟩, ⟨"store_s3", [], true⟩],
          true⟩,
         ⟨"r2", ⟨"", "", ""⟩, [⟨"store_local", [], true⟩], true⟩]).1 =
      [("r1", ⟨"store_local", [], true⟩), ("r1", ⟨"webhook", [], true⟩),
       ("r2", ⟨"store_local", [], true⟩)] := by
  have h := dispatch_failure_isolation (fun a => a.type != "webhook")
    ⟨"s@x", ["r@x"], "subj", none, "", [], "", "", [], []⟩
    [⟨"r1", ⟨"", "", ""⟩,
      [⟨"store_local", [], true⟩, ⟨"webhook", [], true⟩, ⟨"store_s3", [], true⟩], true⟩,
     ⟨"r2", ⟨"", "", ""⟩, [⟨"store_local", [], true⟩], true⟩]
  refine ⟨?_, ?_⟩
  · exact h.2.2.1
      [⟨"store_local", [], true⟩, ⟨"webhook", [], true⟩, ⟨"store_s3", [], true⟩]
      [⟨"store_local", [], true⟩] [⟨"store_s3", [], true⟩] ⟨"webhook", [], true⟩
      (by decide) (by decide) (by decide)
  · rw [h.1]
    decide


/-- C6: a rule matches exactly when each of its non-empty conditions
matches as an unanchored search — some substring of the tested field is
in the pattern's language — with `recipientPattern` tested against every
address in `email.to` (a match on any one suffices), an empty condition a
wildcard, and a pattern that fails to compile making only that rule
non-matching; all matching enabled rules are selected, and fire, in
configuration order. -/
theorem routing_rule_semantics (email : Email) (routes : List RouteConfig)
    (route : RouteConfig) (runAction : Action → Bool) :
    (routeMatches email route = true ↔
      ((route.condition.recipientPattern = "" ∨
         ∃ rx, regexpCompile route.condition.recipientPattern = some rx ∧
           ∃ addr ∈ email.toAddrs, ∃ pre mid suf,
             pre ++ mid ++ suf = addr.data ∧ RMatch rx mid) ∧
       (route.condition.senderPattern = "" ∨
         ∃ rx, regexpCompile route.condition.senderPattern = some rx ∧
           ∃ pre mid suf, pre ++ mid ++ suf = email.fromAddr.data ∧ RMatch rx mid) ∧
       (route.condition.subjectPattern = "" ∨
         ∃ rx, regexpCompile route.condition.subjectPattern = some rx ∧
           ∃ pre mid suf, pre ++ mid ++ suf = email.subject.data ∧ RMatch rx mid))) ∧
    findMatchingRoutes email routes = routes.filter (fun r => routeMatches email r) ∧
    getEnabledRoutes routes = routes.filter (fun r => r.enabled) ∧
    (dispatchRoutes runAction email routes).1 =
      (findMatchingRoutes email (getEnabledRoutes routes)).flatMap
        (fun r => (executeRoute runAction r.actions).1.map (fun a => (r.name, a))) := by
  refine ⟨?_, findMatchingRoutes_eq_filter email routes,
    getEnabledRoutes_eq_filter routes, dispatchList_fst runAction _⟩
  rw [routeMatches]
  simp only [Bool.and_eq_true]
  rw [condCheck_iff _ (fun rx => email.toAddrs.any (fun recipient => regexpMatch rx recipient)),
    condCheck_iff _ (fun rx => regexpMatch rx email.fromAddr),
    condCheck_iff _ (fun rx => regexpMatch rx email.subject)]
  simp only [List.any_eq_true, regexpMatch_iff]
  exact and_assoc
